import Mathlib

/-!
Verification development for the HackVR protocol core (hackvr-py).

Strings are modelled as lists of Unicode code points (`List Nat`), byte
sequences as lists of byte values (`List Nat`, each < 256).  Each definition
is a shallow embedding of the correspondingly named Python function:

* `isCc`, `isValidName`, `isValidParam`, `Parser`-related functions embed
  `src/hackvr/common/stream.py`;
* `normalize` and `encode` embed `src/hackvr/common/encoding.py`;
* UTF-8 encoding/decoding embeds the semantics of Python's strict
  `str.encode("utf-8")` / `bytes.decode("utf-8")`.

Loops are written with an explicit fuel argument so that every definition is
structurally recursive and computable by the kernel; the fuel passed by the
wrappers is always sufficient, which the fuel-irrelevance lemmas below prove.
-/

/-- Unicode general category Cc (control): U+0000..U+001F and U+007F..U+009F.
This is the exact set matched by `unicodedata.category(ch) == "Cc"`. -/
def isCc (c : Nat) : Bool :=
  c < 32 || (127 ≤ c && c ≤ 159)

/-- Embedding of `stream._contains_control`. -/
def containsControl (s : List Nat) : Bool :=
  s.any isCc

/-- Embedding of `stream._is_valid_name`: non-empty, no control characters. -/
def isValidName (s : List Nat) : Bool :=
  !s.isEmpty && !containsControl s

/-- Embedding of `stream._is_valid_param`: no control characters except LF. -/
def isValidParam (s : List Nat) : Bool :=
  s.all (fun c => !(isCc c && c != 10))

/-- UTF-8 encoding of a single scalar value, as produced by Python's strict
`str.encode("utf-8")`: `none` on surrogates (U+D800..U+DFFF) and on values
that are not code points at all (≥ U+110000). -/
def utf8EncodeChar (c : Nat) : Option (List Nat) :=
  if c < 0x80 then some [c]
  else if c < 0x800 then some [0xC0 + c / 64, 0x80 + c % 64]
  else if c < 0x10000 then
    if 0xD800 ≤ c ∧ c < 0xE000 then none
    else some [0xE0 + c / 4096, 0x80 + c / 64 % 64, 0x80 + c % 64]
  else if c < 0x110000 then
    some [0xF0 + c / 262144, 0x80 + c / 4096 % 64, 0x80 + c / 64 % 64,
          0x80 + c % 64]
  else none

/-- UTF-8 encoding of a whole string (Python `str.encode("utf-8")`). -/
def utf8Encode : List Nat → Option (List Nat)
  | [] => some []
  | c :: cs =>
    match utf8EncodeChar c, utf8Encode cs with
    | some eb, some ebs => some (eb ++ ebs)
    | _, _ => none

/-- Strict UTF-8 decoding with fuel (each step consumes one encoded
character, i.e. at least one byte) and an accumulator of the code points
decoded so far, in reverse.  Mirrors Python's `bytes.decode("utf-8")`:
rejects stray continuation bytes, overlong forms, surrogates and values above
U+10FFFF. -/
def utf8DecodeAux : Nat → List Nat → List Nat → Option (List Nat)
  | _, [], acc => some acc.reverse
  | 0, _ :: _, _ => none
  | m + 1, b :: rest, acc =>
    if b < 0x80 then utf8DecodeAux m rest (b :: acc)
    else if b < 0xC2 then none
    else if b < 0xE0 then
      match rest with
      | b1 :: rest2 =>
        if 0x80 ≤ b1 ∧ b1 < 0xC0 then
          utf8DecodeAux m rest2 (((b - 0xC0) * 64 + (b1 - 0x80)) :: acc)
        else none
      | [] => none
    else if b < 0xF0 then
      match rest with
      | b1 :: b2 :: rest2 =>
        if (0x80 ≤ b1 ∧ b1 < 0xC0) ∧ (0x80 ≤ b2 ∧ b2 < 0xC0) then
          if (b - 0xE0) * 4096 + (b1 - 0x80) * 64 + (b2 - 0x80) < 0x800 ∨
              (0xD800 ≤ (b - 0xE0) * 4096 + (b1 - 0x80) * 64 + (b2 - 0x80) ∧
                (b - 0xE0) * 4096 + (b1 - 0x80) * 64 + (b2 - 0x80) < 0xE000) then
            none
          else
            utf8DecodeAux m rest2
              (((b - 0xE0) * 4096 + (b1 - 0x80) * 64 + (b2 - 0x80)) :: acc)
        else none
      | _ => none
    else if b < 0xF5 then
      match rest with
      | b1 :: b2 :: b3 :: rest2 =>
        if ((0x80 ≤ b1 ∧ b1 < 0xC0) ∧ (0x80 ≤ b2 ∧ b2 < 0xC0)) ∧
            (0x80 ≤ b3 ∧ b3 < 0xC0) then
          if (b - 0xF0) * 262144 + (b1 - 0x80) * 4096 + (b2 - 0x80) * 64 +
              (b3 - 0x80) < 0x10000 ∨
              0x110000 ≤ (b - 0xF0) * 262144 + (b1 - 0x80) * 4096 +
                (b2 - 0x80) * 64 + (b3 - 0x80) then
            none
          else
            utf8DecodeAux m rest2
              (((b - 0xF0) * 262144 + (b1 - 0x80) * 4096 + (b2 - 0x80) * 64 +
                (b3 - 0x80)) :: acc)
        else none
      | _ => none
    else none

/-- UTF-8 decoding of a byte list; the byte count is always enough fuel. -/
def utf8Decode (bs : List Nat) : Option (List Nat) :=
  utf8DecodeAux bs.length bs []

/-- Embedding of `stream.MAX_LINE_LENGTH`. -/
def maxLineLength : Nat := 1024

/-- A parsed frame: the command name followed by the parameters. -/
abbrev Frame := List (List Nat)

/-- State of `stream.Parser`: accumulator buffer, overflow flag, and the
queue of parsed frames (front of the list is pulled first). -/
structure ParserState where
  buffer : List Nat
  overflowed : Bool
  queue : List Frame
  deriving DecidableEq, Repr

/-- Scan for the next `CR LF` pair, carrying the index reached so far. -/
def findCrlfFrom (i : Nat) : List Nat → Option Nat
  | [] => none
  | c :: rest =>
    match rest with
    | [] => none
    | d :: _ => if c = 13 ∧ d = 10 then some i else findCrlfFrom (i + 1) rest

/-- Index of the first `CR LF` pair in a byte list (Python
`buffer.find(b"\r\n")`, with `none` for `-1`). -/
def findCrlf (bs : List Nat) : Option Nat :=
  findCrlfFrom 0 bs

/-- Embedding of `Parser._parse_buffer` (stream.py lines 30-75), one fuel
unit per iteration of the `while True` loop.  Each iteration either returns
or consumes at least two bytes, so fuel `buffer.length + 1` is always
sufficient. -/
def parseLoop : Nat → List Nat → Bool → List Frame → ParserState
  | 0, buf, ov, q => ⟨buf, ov, q⟩
  | fuel + 1, buf0, ov0, q =>
    -- lines 32-33: trim while already overflowed
    let buf1 := if ov0 ∧ buf0.length > maxLineLength then
      buf0.drop (buf0.length - maxLineLength) else buf0
    -- lines 34-36: enter overflow mode and trim
    let ov1 := if ¬ov0 ∧ buf1.length > maxLineLength then true else ov0
    let buf2 := if ¬ov0 ∧ buf1.length > maxLineLength then
      buf1.drop (buf1.length - maxLineLength) else buf1
    if ov1 then
      -- lines 39-45: skip to the next terminator
      match findCrlf buf2 with
      | none => ⟨buf2, ov1, q⟩
      | some t => parseLoop fuel (buf2.drop (t + 2)) false q
    else
      match findCrlf buf2 with
      | none => ⟨buf2, ov1, q⟩
      | some t =>
        let lineBytes := buf2.take t
        let buf3 := buf2.drop (t + 2)
        if lineBytes.contains 13 then parseLoop fuel buf3 false q
        else
          match utf8Decode lineBytes with
          | none => parseLoop fuel buf3 false q
          | some line =>
            if line.isEmpty then parseLoop fuel buf3 false q
            else
              let parts := line.splitOn 9
              if isValidName (parts.headD []) &&
                  (parts.drop 1).all isValidParam then
                parseLoop fuel buf3 false (q ++ [parts])
              else parseLoop fuel buf3 false q

/-- Embedding of `Parser.push`. -/
def ParserState.push (st : ParserState) (data : List Nat) : ParserState :=
  if data.isEmpty then st
  else
    let buf := st.buffer ++ data
    parseLoop (buf.length + 1) buf st.overflowed st.queue

/-- Embedding of `Parser.pull`. -/
def ParserState.pull (st : ParserState) : Option Frame × ParserState :=
  match st.queue with
  | [] => (none, st)
  | f :: rest => (some f, ⟨st.buffer, st.overflowed, rest⟩)

/-- A freshly constructed `Parser()`. -/
def ParserState.init : ParserState := ⟨[], false, []⟩

/-- Embedding of `encoding._normalize`: first replace `CR LF` by `LF`
(left to right, non-overlapping), then replace every remaining `CR` by
`LF`. -/
def replaceCrlf : List Nat → List Nat
  | 13 :: 10 :: rest => 10 :: replaceCrlf rest
  | c :: rest => c :: replaceCrlf rest
  | [] => []

/-- Embedding of `encoding._normalize` (both `str.replace` passes). -/
def normalizeNl (s : List Nat) : List Nat :=
  (replaceCrlf s).map (fun c => if c == 13 then 10 else c)

/-- Errors raised by `encoding.encode` (all `ValueError` in Python; the
`encodeError` case stands for `UnicodeEncodeError` from `str.encode`). -/
inductive EncodeErr where
  | invalidName
  | invalidParam
  | tooLong
  | encodeError
  deriving DecidableEq, Repr

/-- Embedding of `encoding.encode` (encoding.py lines 13-26). -/
def encode (cmd : List Nat) (params : List (List Nat)) :
    Except EncodeErr (List Nat) :=
  let ncmd := normalizeNl cmd
  let nparams := params.map normalizeNl
  if !isValidName ncmd then .error .invalidName
  else if !nparams.all isValidParam then .error .invalidParam
  else
    let line := [9].intercalate (ncmd :: nparams) ++ [13, 10]
    match utf8Encode line with
    | none => .error .encodeError
    | some data =>
      if data.length > maxLineLength then .error .tooLong else .ok data

/-! ### UTF-8 round-trip lemmas -/

theorem utf8Encode_cons {c : Nat} {cs : List Nat} {eb ebs : List Nat}
    (h1 : utf8EncodeChar c = some eb) (h2 : utf8Encode cs = some ebs) :
    utf8Encode (c :: cs) = some (eb ++ ebs) := by
  simp [utf8Encode, h1, h2]

theorem utf8Encode_cons_inv {c : Nat} {cs : List Nat} {d : List Nat}
    (h : utf8Encode (c :: cs) = some d) :
    ∃ eb ebs, utf8EncodeChar c = some eb ∧ utf8Encode cs = some ebs ∧
      d = eb ++ ebs := by
  unfold utf8Encode at h
  cases h1 : utf8EncodeChar c with
  | none => rw [h1] at h; exact absurd h (by simp)
  | some eb =>
    cases h2 : utf8Encode cs with
    | none => rw [h1, h2] at h; exact absurd h (by simp)
    | some ebs =>
      rw [h1, h2] at h
      exact ⟨eb, ebs, rfl, rfl, by simpa using h.symm⟩

theorem utf8EncodeChar_ne_nil {c : Nat} {eb : List Nat}
    (h : utf8EncodeChar c = some eb) : eb ≠ [] := by
  intro hnil
  subst hnil
  unfold utf8EncodeChar at h
  split at h
  · simp at h
  · split at h
    · simp at h
    · split at h
      · split at h
        · simp at h
        · simp at h
      · split at h
        · simp at h
        · simp at h

theorem utf8Encode_length_ge {s bs : List Nat} (h : utf8Encode s = some bs) :
    s.length ≤ bs.length := by
  induction s generalizing bs with
  | nil =>
    simp [utf8Encode] at h
    subst h
    simp
  | cons c cs ih =>
    obtain ⟨eb, ebs, h1, h2, rfl⟩ := utf8Encode_cons_inv h
    have hne := utf8EncodeChar_ne_nil h1
    have h1le : 1 ≤ eb.length := by
      cases eb with
      | nil => exact absurd rfl hne
      | cons _ _ => simp
    have := ih h2
    simp only [List.length_cons, List.length_append]
    omega

theorem mem13_utf8EncodeChar {c : Nat} {eb : List Nat}
    (h : utf8EncodeChar c = some eb) (hc : c ≠ 13) : ¬ 13 ∈ eb := by
  unfold utf8EncodeChar at h
  split at h
  · simp at h
    subst h
    simpa using Ne.symm hc
  · rename_i hge
    push_neg at hge
    split at h
    · simp at h
      subst h
      intro hm
      simp at hm
      omega
    · split at h
      · split at h
        · simp at h
        · simp at h
          subst h
          intro hm
          simp at hm
          omega
      · split at h
        · simp at h
          subst h
          intro hm
          simp at hm
          omega
        · simp at h

theorem mem13_utf8Encode {s bs : List Nat} (h : utf8Encode s = some bs)
    (hs : ¬ 13 ∈ s) : ¬ 13 ∈ bs := by
  induction s generalizing bs with
  | nil =>
    simp [utf8Encode] at h
    subst h
    simp
  | cons c cs ih =>
    obtain ⟨eb, ebs, h1, h2, rfl⟩ := utf8Encode_cons_inv h
    simp only [List.mem_append]
    push_neg
    refine ⟨mem13_utf8EncodeChar h1 ?_, ih h2 ?_⟩
    · intro hceq; exact hs (by simp [hceq])
    · intro hm; exact hs (by simp [hm])

theorem utf8DecodeAux_step {c : Nat} {eb : List Nat}
    (h : utf8EncodeChar c = some eb) (m : Nat) (rest acc : List Nat) :
    utf8DecodeAux (m + 1) (eb ++ rest) acc = utf8DecodeAux m rest (c :: acc) := by
  unfold utf8EncodeChar at h
  by_cases h1 : c < 0x80
  · rw [if_pos h1] at h
    simp at h
    subst h
    simp [utf8DecodeAux, h1]
  · rw [if_neg h1] at h
    push_neg at h1
    by_cases h2 : c < 0x800
    · rw [if_pos h2] at h
      simp at h
      subst h
      have hm64 : c % 64 < 64 := Nat.mod_lt _ (by norm_num)
      have hd2 : 2 ≤ c / 64 := by
        have := Nat.div_add_mod c 64
        omega
      have hd2' : c / 64 < 32 := Nat.div_lt_of_lt_mul (by omega)
      have hA : ¬ (192 + c / 64 < 128) := by omega
      have hB : ¬ (192 + c / 64 < 194) := by omega
      have hC : 192 + c / 64 < 224 := by omega
      have hcont : (128 : Nat) ≤ 128 + c % 64 ∧ 128 + c % 64 < 192 := by omega
      have hval : (192 + c / 64 - 192) * 64 + (128 + c % 64 - 128) = c := by
        have := Nat.div_add_mod c 64
        omega
      simp only [List.cons_append, List.nil_append, utf8DecodeAux]
      rw [if_neg hA, if_neg hB, if_pos hC]
      simp only [List.append_eq, List.singleton_append]
      rw [if_pos hcont, hval]
    · rw [if_neg h2] at h
      push_neg at h2
      by_cases h3 : c < 0x10000
      · rw [if_pos h3] at h
        split at h
        · exact absurd h (by simp)
        · rename_i hsur
          simp at h
          subst h
          have hm1 : c / 64 % 64 < 64 := Nat.mod_lt _ (by norm_num)
          have hm2 : c % 64 < 64 := Nat.mod_lt _ (by norm_num)
          have e1 := Nat.div_add_mod c 64
          have e2 := Nat.div_add_mod (c / 64) 64
          have e3 : c / 64 / 64 = c / 4096 := by rw [Nat.div_div_eq_div_mul]
          have hd3 : c / 4096 < 16 := Nat.div_lt_of_lt_mul (by omega)
          have hval : (224 + c / 4096 - 224) * 4096 +
              (128 + c / 64 % 64 - 128) * 64 + (128 + c % 64 - 128) = c := by
            omega
          have hA : ¬ (224 + c / 4096 < 128) := by omega
          have hB : ¬ (224 + c / 4096 < 194) := by omega
          have hC : ¬ (224 + c / 4096 < 224) := by omega
          have hD : 224 + c / 4096 < 240 := by omega
          have hcont : ((128 : Nat) ≤ 128 + c / 64 % 64 ∧ 128 + c / 64 % 64 < 192) ∧
              ((128 : Nat) ≤ 128 + c % 64 ∧ 128 + c % 64 < 192) := by omega
          have hok : ¬ ((224 + c / 4096 - 224) * 4096 +
              (128 + c / 64 % 64 - 128) * 64 + (128 + c % 64 - 128) < 2048 ∨
              (55296 ≤ (224 + c / 4096 - 224) * 4096 +
                (128 + c / 64 % 64 - 128) * 64 + (128 + c % 64 - 128) ∧
                (224 + c / 4096 - 224) * 4096 +
                (128 + c / 64 % 64 - 128) * 64 + (128 + c % 64 - 128) < 57344)) := by
            rw [hval]
            intro hbad
            rcases hbad with hlt | hsr
            · omega
            · exact hsur hsr
          simp only [List.cons_append, List.nil_append, utf8DecodeAux]
          rw [if_neg hA, if_neg hB, if_neg hC, if_pos hD]
          simp only [List.append_eq, List.cons_append, List.singleton_append]
          rw [if_pos hcont, if_neg hok, hval]
          rw [List.nil_append]
      · rw [if_neg h3] at h
        push_neg at h3
        split at h
        · rename_i h4
          simp at h
          subst h
          have hm1 : c / 4096 % 64 < 64 := Nat.mod_lt _ (by norm_num)
          have hm2 : c / 64 % 64 < 64 := Nat.mod_lt _ (by norm_num)
          have hm3 : c % 64 < 64 := Nat.mod_lt _ (by norm_num)
          have e1 := Nat.div_add_mod c 64
          have e2 := Nat.div_add_mod (c / 64) 64
          have e3 := Nat.div_add_mod (c / 4096) 64
          have d1 : c / 64 / 64 = c / 4096 := by rw [Nat.div_div_eq_div_mul]
          have d2 : c / 4096 / 64 = c / 262144 := by rw [Nat.div_div_eq_div_mul]
          have hd4 : c / 262144 < 5 := Nat.div_lt_of_lt_mul (by omega)
          have hval : (240 + c / 262144 - 240) * 262144 +
              (128 + c / 4096 % 64 - 128) * 4096 +
              (128 + c / 64 % 64 - 128) * 64 + (128 + c % 64 - 128) = c := by
            omega
          have hA : ¬ (240 + c / 262144 < 128) := by omega
          have hB : ¬ (240 + c / 262144 < 194) := by omega
          have hC : ¬ (240 + c / 262144 < 224) := by omega
          have hD : ¬ (240 + c / 262144 < 240) := by omega
          have hE : 240 + c / 262144 < 245 := by omega
          have hcont : (((128 : Nat) ≤ 128 + c / 4096 % 64 ∧
              128 + c / 4096 % 64 < 192) ∧
              ((128 : Nat) ≤ 128 + c / 64 % 64 ∧ 128 + c / 64 % 64 < 192)) ∧
              ((128 : Nat) ≤ 128 + c % 64 ∧ 128 + c % 64 < 192) := by omega
          have hok : ¬ ((240 + c / 262144 - 240) * 262144 +
              (128 + c / 4096 % 64 - 128) * 4096 +
              (128 + c / 64 % 64 - 128) * 64 + (128 + c % 64 - 128) < 65536 ∨
              1114112 ≤ (240 + c / 262144 - 240) * 262144 +
              (128 + c / 4096 % 64 - 128) * 4096 +
              (128 + c / 64 % 64 - 128) * 64 + (128 + c % 64 - 128)) := by
            rw [hval]
            omega
          simp only [List.cons_append, List.nil_append, utf8DecodeAux]
          rw [if_neg hA, if_neg hB, if_neg hC, if_neg hD, if_pos hE]
          simp only [List.append_eq, List.cons_append, List.singleton_append]
          rw [if_pos hcont, if_neg hok, hval]
          rw [List.nil_append]
        · exact absurd h (by simp)

theorem utf8DecodeAux_encode {s : List Nat} :
    ∀ {bs : List Nat}, utf8Encode s = some bs →
    ∀ {fuel : Nat}, s.length ≤ fuel → ∀ (acc : List Nat),
    utf8DecodeAux fuel bs acc = some (acc.reverse ++ s) := by
  induction s with
  | nil =>
    intro bs h fuel _ acc
    simp [utf8Encode] at h
    subst h
    cases fuel <;> simp [utf8DecodeAux]
  | cons c cs ih =>
    intro bs h fuel hf acc
    obtain ⟨eb, ebs, h1, h2, rfl⟩ := utf8Encode_cons_inv h
    simp at hf
    obtain ⟨m, rfl⟩ : ∃ m, fuel = m + 1 := ⟨fuel - 1, by omega⟩
    rw [utf8DecodeAux_step h1 m ebs acc, ih h2 (by omega) (c :: acc)]
    simp

theorem utf8Decode_encode {s bs : List Nat} (h : utf8Encode s = some bs) :
    utf8Decode bs = some s := by
  have := utf8DecodeAux_encode h (utf8Encode_length_ge h) []
  simpa [utf8Decode] using this

/-! ### Frame codec and parser lemmas -/

theorem validName_facts {s : List Nat} (h : isValidName s = true) :
    s ≠ [] ∧ ¬ 9 ∈ s ∧ ¬ 13 ∈ s := by
  simp only [isValidName, containsControl, Bool.and_eq_true, Bool.not_eq_true',
    List.any_eq_false] at h
  obtain ⟨hne, hcc⟩ := h
  refine ⟨by simpa using hne, ?_, ?_⟩
  · intro hm; simpa [isCc] using hcc 9 hm
  · intro hm; simpa [isCc] using hcc 13 hm

theorem validParam_facts {s : List Nat} (h : isValidParam s = true) :
    ¬ 9 ∈ s ∧ ¬ 13 ∈ s := by
  simp only [isValidParam, List.all_eq_true] at h
  constructor
  · intro hm; simpa [isCc] using h 9 hm
  · intro hm; simpa [isCc] using h 13 hm

theorem intercalate9_singleton (x : List Nat) : [9].intercalate [x] = x := by
  simp [List.intercalate]

theorem intercalate9_cons_cons (x y : List Nat) (ls : List (List Nat)) :
    [9].intercalate (x :: y :: ls) = x ++ 9 :: [9].intercalate (y :: ls) := by
  simp [List.intercalate, List.intersperse_cons_cons]

theorem mem_intercalate9 {c : Nat} {ls : List (List Nat)}
    (h : c ∈ [9].intercalate ls) : c = 9 ∨ ∃ l ∈ ls, c ∈ l := by
  induction ls with
  | nil => simp [List.intercalate] at h
  | cons x xs ih =>
    cases xs with
    | nil =>
      rw [intercalate9_singleton] at h
      exact Or.inr ⟨x, by simp, h⟩
    | cons y ys =>
      rw [intercalate9_cons_cons] at h
      rcases List.mem_append.1 h with hx | hrest
      · exact Or.inr ⟨x, by simp, hx⟩
      · rcases List.mem_cons.1 hrest with h9 | hh
        · exact Or.inl h9
        · rcases ih hh with h9 | ⟨l, hl, hc⟩
          · exact Or.inl h9
          · exact Or.inr ⟨l, by simp [List.mem_cons.1 hl], hc⟩

theorem intercalate9_ne_nil {x : List Nat} {xs : List (List Nat)}
    (hx : x ≠ []) : [9].intercalate (x :: xs) ≠ [] := by
  cases xs with
  | nil => simpa [intercalate9_singleton]
  | cons y ys =>
    rw [intercalate9_cons_cons]
    simp [hx]

theorem findCrlfFrom_cons_ne13 {c : Nat} (hc : c ≠ 13) (i : Nat)
    (rest : List Nat) : findCrlfFrom i (c :: rest) = findCrlfFrom (i + 1) rest := by
  cases rest with
  | nil => simp [findCrlfFrom]
  | cons d ds =>
    simp only [findCrlfFrom]
    rw [if_neg (fun hand => hc hand.1)]

theorem findCrlfFrom_no13 {xs : List Nat} (hx : ¬ 13 ∈ xs) :
    ∀ (i : Nat) (rest : List Nat),
    findCrlfFrom i (xs ++ 13 :: 10 :: rest) = some (i + xs.length) := by
  induction xs with
  | nil => intro i rest; simp [findCrlfFrom]
  | cons c cs ih =>
    intro i rest
    have hc : c ≠ 13 := fun hceq => hx (by simp [hceq])
    have hcs : ¬ 13 ∈ cs := fun hm => hx (by simp [hm])
    rw [List.cons_append, findCrlfFrom_cons_ne13 hc, ih hcs (i + 1) rest]
    simp
    omega

theorem findCrlf_no13 {xs rest : List Nat} (hx : ¬ 13 ∈ xs) :
    findCrlf (xs ++ 13 :: 10 :: rest) = some xs.length := by
  simpa [findCrlf] using findCrlfFrom_no13 hx 0 rest

theorem findCrlf_nil : findCrlf [] = none := rfl

theorem parseLoop_stuck {buf : List Nat} (hlen : buf.length ≤ maxLineLength)
    (hfind : findCrlf buf = none) (fuel : Nat) (q : List Frame) :
    parseLoop (fuel + 1) buf false q = ⟨buf, false, q⟩ := by
  have hnot : ¬ (buf.length > maxLineLength) := not_lt.2 hlen
  simp [parseLoop, hnot, hfind]

theorem utf8Encode_append_inv {xs ys d : List Nat}
    (h : utf8Encode (xs ++ ys) = some d) :
    ∃ bs cs, utf8Encode xs = some bs ∧ utf8Encode ys = some cs ∧ d = bs ++ cs := by
  induction xs generalizing d with
  | nil => exact ⟨[], d, rfl, by simpa using h, rfl⟩
  | cons c cs' ih =>
    rw [List.cons_append] at h
    obtain ⟨eb, ebs, h1, h2, rfl⟩ := utf8Encode_cons_inv h
    obtain ⟨bs, cs, h3, h4, rfl⟩ := ih h2
    exact ⟨eb ++ bs, cs, utf8Encode_cons h1 h3, h4, by simp⟩

theorem parseLoop_consume {ebody rest body : List Nat} {q : List Frame}
    (hlen : (ebody ++ 13 :: 10 :: rest).length ≤ maxLineLength)
    (h13 : ¬ 13 ∈ ebody)
    (hdec : utf8Decode ebody = some body)
    (hbody : body ≠ [])
    (hvalid : (isValidName ((body.splitOn 9).headD []) &&
      ((body.splitOn 9).drop 1).all isValidParam) = true) (fuel : Nat) :
    parseLoop (fuel + 1) (ebody ++ 13 :: 10 :: rest) false q =
      parseLoop fuel rest false (q ++ [body.splitOn 9]) := by
  have hnot : ¬ ((ebody ++ 13 :: 10 :: rest).length > maxLineLength) := not_lt.2 hlen
  have hfind : findCrlf (ebody ++ 13 :: 10 :: rest) = some ebody.length :=
    findCrlf_no13 h13
  have htake : (ebody ++ 13 :: 10 :: rest).take ebody.length = ebody :=
    List.take_left ebody _
  have hdropbase : (ebody ++ 13 :: 10 :: rest).drop ebody.length = 13 :: 10 :: rest :=
    List.drop_left ebody _
  have hdrop : (ebody ++ 13 :: 10 :: rest).drop (ebody.length + 2) = rest := by
    rw [← List.drop_drop, hdropbase]
    rfl
  have hcont : (ebody.contains 13) = false := by
    simpa using h13
  have hne : body.isEmpty = false := by
    simpa using hbody
  have hlen' : ebody.length + (rest.length + 1 + 1) ≤ maxLineLength := by
    simpa using hlen
  have hgt : ¬ (ebody.length + (rest.length + 1 + 1) > maxLineLength) :=
    not_lt.2 hlen'
  simp [parseLoop, hgt, hfind, htake, hdrop, hcont, hdec, hne, hvalid]
  rw [if_neg h13]
  have hval' : isValidName ((List.splitOn 9 body).head?.getD []) = true ∧
      ∀ x ∈ (List.splitOn 9 body).tail, isValidParam x = true := by
    rcases (Bool.and_eq_true _ _).mp hvalid with ⟨ha, hb⟩
    constructor
    · simpa [List.headD_eq_head?] using ha
    · intro x hx
      exact List.all_eq_true.mp (by simpa [List.drop_one] using hb) x hx
  rw [if_pos hval']

theorem encode_ok_inv {cmd : List Nat} {params : List (List Nat)} {data : List Nat}
    (h : encode cmd params = .ok data) :
    isValidName (normalizeNl cmd) = true ∧
    (params.map normalizeNl).all isValidParam = true ∧
    utf8Encode ([9].intercalate (normalizeNl cmd :: params.map normalizeNl) ++
      [13, 10]) = some data ∧
    data.length ≤ maxLineLength := by
  unfold encode at h
  dsimp only at h
  split at h
  · exact absurd h (by simp)
  · split at h
    · exact absurd h (by simp)
    · rename_i hname hparams
      simp only [Bool.not_eq_true', Bool.not_eq_false] at hname hparams
      refine ⟨hname, hparams, ?_⟩
      split at h
      · exact absurd h (by simp)
      · rename_i d hd
        split at h
        · exact absurd h (by simp)
        · rename_i hlong
          simp only [Except.ok.injEq] at h
          subst h
          exact ⟨hd, not_lt.1 hlong⟩

theorem push_encoded {cmd : List Nat} {params : List (List Nat)} {data : List Nat}
    (h : encode cmd params = .ok data) (q : List Frame) :
    ParserState.push ⟨[], false, q⟩ data =
      ⟨[], false, q ++ [normalizeNl cmd :: params.map normalizeNl]⟩ := by
  obtain ⟨hname, hparams, henc, hlen⟩ := encode_ok_inv h
  have hparams' : ∀ p ∈ params.map normalizeNl, isValidParam p = true :=
    List.all_eq_true.mp hparams
  obtain ⟨hcmdne, hcmd9, hcmd13⟩ := validName_facts hname
  -- decompose the encoded bytes
  obtain ⟨ebody, ecrlf, hb, hc, rfl⟩ := utf8Encode_append_inv henc
  have hcrlf : ecrlf = [13, 10] := by
    have : utf8Encode [13, 10] = some [13, 10] := by decide
    rw [this] at hc
    exact (Option.some.injEq _ _).mp hc.symm
  subst hcrlf
  -- body facts
  have h13body : ¬ 13 ∈ [9].intercalate (normalizeNl cmd :: params.map normalizeNl) := by
    intro hm
    rcases mem_intercalate9 hm with h9 | ⟨l, hl, hcl⟩
    · omega
    · rcases List.mem_cons.1 hl with rfl | hlp
      · exact hcmd13 hcl
      · exact (validParam_facts (hparams' l hlp)).2 hcl
  have hebody13 : ¬ 13 ∈ ebody := mem13_utf8Encode hb h13body
  have hdec : utf8Decode ebody = some ([9].intercalate (normalizeNl cmd :: params.map normalizeNl)) :=
    utf8Decode_encode hb
  have hbodyne : [9].intercalate (normalizeNl cmd :: params.map normalizeNl) ≠ [] :=
    intercalate9_ne_nil hcmdne
  have hsplit : ([9].intercalate (normalizeNl cmd :: params.map normalizeNl)).splitOn 9 =
      normalizeNl cmd :: params.map normalizeNl := by
    apply List.splitOn_intercalate
    · intro l hl
      rcases List.mem_cons.1 hl with rfl | hlp
      · exact hcmd9
      · exact (validParam_facts (hparams' l hlp)).1
    · simp
  have hvalid : (isValidName ((([9].intercalate (normalizeNl cmd :: params.map normalizeNl)).splitOn 9).headD []) &&
      ((([9].intercalate (normalizeNl cmd :: params.map normalizeNl)).splitOn 9).drop 1).all isValidParam) = true := by
    rw [hsplit]
    simp [hname, hparams]
  -- run the parser
  have hdata_ne : (ebody ++ [13, 10]).isEmpty = false := by simp
  have hlen2 : (ebody ++ 13 :: 10 :: ([] : List Nat)).length ≤ maxLineLength := by
    simpa using hlen
  show ParserState.push ⟨[], false, q⟩ (ebody ++ [13, 10]) = _
  unfold ParserState.push
  rw [if_neg (by simp [hdata_ne])]
  simp only [List.nil_append]
  have hshape : ebody ++ [13, 10] = ebody ++ 13 :: 10 :: ([] : List Nat) := rfl
  rw [hshape]
  have hflen : (ebody ++ 13 :: 10 :: ([] : List Nat)).length = ebody.length + 2 := by
    simp
  rw [hflen]
  have : ebody.length + 2 + 1 = (ebody.length + 2) + 1 := rfl
  rw [this]
  rw [parseLoop_consume hlen2 hebody13 hdec hbodyne hvalid]
  rw [hsplit]
  have h2 : ebody.length + 2 = (ebody.length + 1) + 1 := rfl
  rw [h2]
  exact parseLoop_stuck (by simp [maxLineLength]) findCrlf_nil _ _

theorem findCrlfFrom_bound : ∀ (l : List Nat) (i t : Nat),
    findCrlfFrom i l = some t → i ≤ t ∧ t + 2 ≤ i + l.length := by
  intro l
  induction l with
  | nil => intro i t h; simp [findCrlfFrom] at h
  | cons c rest ih =>
    intro i t h
    cases rest with
    | nil => simp [findCrlfFrom] at h
    | cons d ds =>
      simp only [findCrlfFrom] at h
      split at h
      · simp at h
        subst h
        simp only [List.length_cons]
        omega
      · obtain ⟨h1, h2⟩ := ih (i + 1) t h
        simp only [List.length_cons] at h2 ⊢
        omega

theorem findCrlf_bound {l : List Nat} {t : Nat} (h : findCrlf l = some t) :
    t + 2 ≤ l.length := by
  simpa using (findCrlfFrom_bound l 0 t h).2

theorem parseLoop_buffer_le : ∀ (fuel : Nat) (buf : List Nat) (ov : Bool)
    (q : List Frame), buf.length < fuel →
    ((parseLoop fuel buf ov q).buffer).length ≤ maxLineLength := by
  intro fuel
  induction fuel with
  | zero => intro buf ov q h; omega
  | succ fuel ih =>
    intro buf ov q hlt
    by_cases hbig : buf.length > maxLineLength
    · have hmax : (1 : Nat) ≤ maxLineLength := by simp [maxLineLength]
      have htrim : (List.drop (buf.length - maxLineLength) buf).length =
          maxLineLength := by simp; omega
      cases ov with
      | true =>
        simp only [parseLoop]
        simp [hbig]
        cases hf : findCrlf (List.drop (buf.length - maxLineLength) buf) with
        | none => simp [hf, htrim]
        | some t =>
          simp only [hf]
          apply ih
          have hb := findCrlf_bound hf
          rw [htrim] at hb
          simp
          omega
      | false =>
        simp only [parseLoop]
        simp [hbig]
        cases hf : findCrlf (List.drop (buf.length - maxLineLength) buf) with
        | none => simp [hf, htrim]
        | some t =>
          simp only [hf]
          apply ih
          have hb := findCrlf_bound hf
          rw [htrim] at hb
          simp
          omega
    · have hsmall : buf.length ≤ maxLineLength := not_lt.1 hbig
      have hrec : ∀ (t : Nat), findCrlf buf = some t → ∀ (q' : List Frame),
          ((parseLoop fuel (buf.drop (t + 2)) false q').buffer).length ≤
            maxLineLength := by
        intro t hf q'
        apply ih
        have hb := findCrlf_bound hf
        simp
        omega
      cases ov with
      | true =>
        simp only [parseLoop]
        simp [hbig]
        cases hf : findCrlf buf with
        | none => simp [hf, hsmall]
        | some t =>
          simp only [hf]
          exact hrec t hf q
      | false =>
        simp only [parseLoop]
        simp [hbig]
        cases hf : findCrlf buf with
        | none => simp [hf, hsmall]
        | some t =>
          simp only [hf]
          split
          · exact hrec t hf q
          · split
            · exact hrec t hf q
            · split
              · exact hrec t hf q
              · split
                · exact hrec t hf _
                · exact hrec t hf q

theorem parseLoop_trim_skip {buf : List Nat} (hbig : buf.length > maxLineLength)
    {t : Nat} (hf : findCrlf (buf.drop (buf.length - maxLineLength)) = some t)
    (fuel : Nat) (q : List Frame) :
    parseLoop (fuel + 1) buf false q =
      parseLoop fuel (buf.drop (buf.length - maxLineLength + (t + 2))) false q := by
  simp [parseLoop, hbig, hf]

theorem push_overlong {body : List Nat} (hlen : body.length = 1023)
    (h13 : ¬ 13 ∈ body) :
    ParserState.push ParserState.init (body ++ [13, 10]) = ⟨[], false, []⟩ := by
  have hdlen : (body ++ [13, 10]).length = 1025 := by simp [hlen]
  have hbig : (body ++ [13, 10]).length > maxLineLength := by
    rw [hdlen]; simp [maxLineLength]
  have hdrop1 : (body ++ [13, 10]).drop 1 = body.drop 1 ++ [13, 10] :=
    List.drop_append_of_le_length (by omega)
  have h13' : ¬ 13 ∈ body.drop 1 := fun hm => h13 (List.mem_of_mem_drop hm)
  have hdroplen : (body.drop 1).length = 1022 := by simp [hlen]
  have hfind : findCrlf ((body ++ [13, 10]).drop 1) = some 1022 := by
    rw [hdrop1]
    have h : findCrlf (body.drop 1 ++ [13, 10]) = some (body.drop 1).length :=
      findCrlf_no13 h13'
    rw [hdroplen] at h
    exact h
  have hidx : (body ++ [13, 10]).length - maxLineLength = 1 := by
    rw [hdlen]; simp [maxLineLength]
  have hfind' : findCrlf ((body ++ [13, 10]).drop
      ((body ++ [13, 10]).length - maxLineLength)) = some 1022 := by
    rw [hidx]; exact hfind
  have hdropall : (body ++ [13, 10]).drop
      ((body ++ [13, 10]).length - maxLineLength + (1022 + 2)) = [] := by
    apply List.drop_eq_nil_of_le
    rw [hidx, hdlen]
  unfold ParserState.push
  rw [if_neg (by simp)]
  simp only [ParserState.init, List.nil_append]
  rw [parseLoop_trim_skip hbig hfind', hdropall, hdlen]
  exact parseLoop_stuck (by simp [maxLineLength]) findCrlf_nil 1024 []

/-! ### Helper facts for concrete witnesses -/

theorem replaceCrlf_replicate97 : ∀ n, replaceCrlf (List.replicate n 97) = List.replicate n 97 := by
  intro n
  induction n with
  | zero => rfl
  | succ n ih =>
    rw [List.replicate_succ]
    cases n with
    | zero => rfl
    | succ m =>
      rw [List.replicate_succ]
      show replaceCrlf (97 :: 97 :: List.replicate m 97) = _
      rw [show replaceCrlf (97 :: 97 :: List.replicate m 97) =
        97 :: replaceCrlf (97 :: List.replicate m 97) from rfl]
      rw [← List.replicate_succ, ih, List.replicate_succ]

theorem normalizeNl_replicate97 (n : Nat) :
    normalizeNl (List.replicate n 97) = List.replicate n 97 := by
  unfold normalizeNl
  rw [replaceCrlf_replicate97]
  rw [List.map_replicate]
  rfl

theorem isValidParam_replicate97 (n : Nat) :
    isValidParam (List.replicate n 97) = true := by
  simp only [isValidParam, List.all_eq_true]
  intro c hc
  rw [List.eq_of_mem_replicate hc]
  decide

theorem utf8Encode_ascii : ∀ {s : List Nat}, (∀ c ∈ s, c < 0x80) →
    utf8Encode s = some s := by
  intro s
  induction s with
  | nil => intro _; rfl
  | cons c cs ih =>
    intro h
    have hc : c < 0x80 := h c (by simp)
    have hcs := ih (fun x hx => h x (by simp [hx]))
    have : utf8EncodeChar c = some [c] := by
      unfold utf8EncodeChar
      rw [if_pos hc]
    rw [utf8Encode_cons this hcs]
    rfl

theorem encode_frame1024 :
    encode [97] [List.replicate 1020 97] =
      .ok ([97, 9] ++ List.replicate 1020 97 ++ [13, 10]) := by
  unfold encode
  dsimp only
  have hn : normalizeNl [97] = [97] := by decide
  have hp : List.map normalizeNl [List.replicate 1020 97] =
      [List.replicate 1020 97] := by
    rw [show List.map normalizeNl [List.replicate 1020 97] =
      [normalizeNl (List.replicate 1020 97)] from rfl, normalizeNl_replicate97]
  rw [hn, hp]
  rw [if_neg (by decide)]
  have hall : [List.replicate 1020 97].all isValidParam = true := by
    rw [List.all_cons, isValidParam_replicate97, List.all_nil]
    rfl
  rw [if_neg (by rw [hall]; decide)]
  have hline : [9].intercalate ([97] :: [List.replicate 1020 97]) ++ [13, 10] =
      [97, 9] ++ List.replicate 1020 97 ++ [13, 10] := by
    rw [intercalate9_cons_cons, intercalate9_singleton]
    rfl
  rw [hline]
  have hasc : ∀ c ∈ [97, 9] ++ List.replicate 1020 97 ++ [13, 10], c < 0x80 := by
    intro c hc
    simp only [List.mem_append, List.mem_cons] at hc
    rcases hc with (h1 | h2) | h3
    · rcases h1 with rfl | h1'
      · decide
      · simp at h1'
        omega
    · rw [List.eq_of_mem_replicate h2]
      decide
    · simp at h3
      rcases h3 with rfl | rfl <;> decide
  rw [utf8Encode_ascii hasc]
  dsimp only
  rw [if_neg (by
    simp only [List.length_append, List.length_replicate, List.length_cons,
      List.length_nil, maxLineLength]
    omega)]

/-! ### Claim theorems: frame codec and streaming parser -/

/-- Claim C1, counterexample: `encode` accepts the pair `("a", ["x\ry"])`
(code points `[97], [[120, 13, 121]]`) after normalizing the carriage return
to a line feed, and a fresh parser then pulls `["a", "x\ny"]`, which differs
from the original `[name, *params]`.  The round-trip as literally claimed is
therefore false. -/
theorem c1_counterexample :
    encode [97] [[120, 13, 121]] = .ok [97, 9, 120, 10, 121, 13, 10] ∧
    (ParserState.push ParserState.init [97, 9, 120, 10, 121, 13, 10]).pull =
      (some [[97], [120, 10, 121]], ⟨[], false, []⟩) ∧
    [[97], [120, 10, 121]] ≠ [[97], [120, 13, 121]] := by
  refine ⟨rfl, rfl, by decide⟩

/-- Claim C1 (amended): for every `(name, params)` accepted by `encode`,
pushing the returned bytes into a fresh parser and pulling returns exactly
`[normalize(name), *map(normalize, params)]` — where `normalize` is the
encoder's newline normalization (CR LF and lone CR become LF) — and a second
pull returns none.  This equals `[name, *params]` exactly when name and
params contain no carriage return. -/
theorem c1_roundtrip_normalized (cmd : List Nat) (params : List (List Nat))
    (data : List Nat) (h : encode cmd params = .ok data) :
    (ParserState.push ParserState.init data).pull =
      (some (normalizeNl cmd :: params.map normalizeNl),
        (⟨[], false, []⟩ : ParserState)) ∧
    (ParserState.pull ⟨[], false, []⟩).1 = none := by
  have hp := push_encoded h []
  constructor
  · rw [show ParserState.init = (⟨[], false, []⟩ : ParserState) from rfl, hp]
    simp [ParserState.pull]
  · rfl

/-- Witness for C1 at the concrete frame `chat\tuser-1\thello`. -/
theorem c1_witness :
    encode [99, 104, 97, 116] [[117, 115, 101, 114, 45, 49],
      [104, 101, 108, 108, 111]] =
      .ok [99, 104, 97, 116, 9, 117, 115, 101, 114, 45, 49, 9,
        104, 101, 108, 108, 111, 13, 10] ∧
    (ParserState.push ParserState.init
      [99, 104, 97, 116, 9, 117, 115, 101, 114, 45, 49, 9,
        104, 101, 108, 108, 111, 13, 10]).pull =
      (some [[99, 104, 97, 116], [117, 115, 101, 114, 45, 49],
        [104, 101, 108, 108, 111]], (⟨[], false, []⟩ : ParserState)) := by
  have henc : encode [99, 104, 97, 116] [[117, 115, 101, 114, 45, 49],
      [104, 101, 108, 108, 111]] =
      .ok [99, 104, 97, 116, 9, 117, 115, 101, 114, 45, 49, 9,
        104, 101, 108, 108, 111, 13, 10] := rfl
  refine ⟨henc, ?_⟩
  rw [(c1_roundtrip_normalized _ _ _ henc).1]
  decide

set_option maxRecDepth 1000000 in
/-- Claim C5: a well-formed frame whose encoding is exactly 1024 bytes is
parsed and delivered (first conjunct, stated from any clean parser state so
it also shows parsing resumes after a skip); a 1025-byte line (1023-byte
body plus CR LF) is skipped entirely — nothing is delivered, and the parser
returns to a clean state (second conjunct); and pushing
`b"a" * 1100 + b"\r\nping\r\n"` into a fresh parser delivers exactly the
frame `["ping"]` (third conjunct). -/
theorem c5_boundary :
    (∀ (cmd : List Nat) (params : List (List Nat)) (data : List Nat)
      (q : List Frame), encode cmd params = .ok data → data.length = 1024 →
      ParserState.push ⟨[], false, q⟩ data =
        ⟨[], false, q ++ [normalizeNl cmd :: params.map normalizeNl]⟩) ∧
    (∀ body : List Nat, body.length = 1023 → ¬ 13 ∈ body →
      ParserState.push ParserState.init (body ++ [13, 10]) = ⟨[], false, []⟩) ∧
    (ParserState.push ParserState.init (List.replicate 1100 97 ++ [13, 10] ++
      [112, 105, 110, 103] ++ [13, 10])).pull =
      (some [[112, 105, 110, 103]], (⟨[], false, []⟩ : ParserState)) := by
  refine ⟨fun cmd params data q h _ => push_encoded h q,
    fun body h1 h2 => push_overlong h1 h2, ?_⟩
  have hq : ParserState.push ParserState.init (List.replicate 1100 97 ++
      [13, 10] ++ [112, 105, 110, 103] ++ [13, 10]) =
      ⟨[], false, [[[112, 105, 110, 103]]]⟩ := by decide
  rw [hq]
  rfl

set_option maxRecDepth 1000000 in
/-- Witness for C5: the 1024-byte frame `a TAB a*1020 CR LF` is delivered,
and the 1025-byte line `a*1023 CR LF` is skipped with nothing delivered. -/
theorem c5_witness :
    encode [97] [List.replicate 1020 97] =
      .ok ([97, 9] ++ List.replicate 1020 97 ++ [13, 10]) ∧
    ([97, 9] ++ List.replicate 1020 97 ++ [13, 10]).length = 1024 ∧
    ParserState.push ⟨[], false, []⟩ ([97, 9] ++ List.replicate 1020 97 ++
      [13, 10]) = ⟨[], false, [[[97], List.replicate 1020 97]]⟩ ∧
    (List.replicate 1023 97).length = 1023 ∧
    ¬ 13 ∈ List.replicate 1023 97 ∧
    ParserState.push ParserState.init (List.replicate 1023 97 ++ [13, 10]) =
      ⟨[], false, []⟩ := by
  have h1 := encode_frame1024
  have h2 : ([97, 9] ++ List.replicate 1020 97 ++ [13, 10]).length = 1024 := by
    simp only [List.length_append, List.length_replicate, List.length_cons,
      List.length_nil]
  have h3 : (List.replicate 1023 97).length = 1023 := List.length_replicate 1023 97
  have h4 : ¬ 13 ∈ List.replicate 1023 97 := by
    simp only [List.mem_replicate]
    decide
  refine ⟨h1, h2, ?_, h3, h4, c5_boundary.2.1 _ h3 h4⟩
  have := c5_boundary.1 [97] [List.replicate 1020 97] _ [] h1 h2
  rw [this]
  have hn : normalizeNl [97] = [97] := by decide
  rw [show List.map normalizeNl [List.replicate 1020 97] =
    [normalizeNl (List.replicate 1020 97)] from rfl, normalizeNl_replicate97, hn,
    List.nil_append]

set_option maxRecDepth 1000000 in
/-- Claim C6, divergence at a concrete input: pushing the byte sequence
`b"ok\r\n" + b"a"*1019 + b"\r\n"` (1025 bytes) in ONE call delivers only one
frame — the leading complete frame `["ok"]` is discarded by the trim that
`_parse_buffer` performs before searching for CR LF — while pushing the same
bytes as two chunks delivers both frames.  Chunk-invariance fails on the
code as written (and the repo's own test
`test_parser_handles_large_valid_block` expects the one-call behavior to
deliver everything). -/
theorem c6_chunk_divergence :
    ([[111, 107, 13, 10], List.replicate 1019 97 ++ [13, 10]] :
      List (List Nat)).flatten =
      [111, 107, 13, 10] ++ List.replicate 1019 97 ++ [13, 10] ∧
    (ParserState.push ParserState.init
      ([111, 107, 13, 10] ++ List.replicate 1019 97 ++ [13, 10])).queue.length
      = 1 ∧
    (List.foldl ParserState.push ParserState.init
      [[111, 107, 13, 10], List.replicate 1019 97 ++ [13, 10]]).queue.length
      = 2 := by
  refine ⟨by simp, by decide, by decide⟩

/-- Claim C10: after any sequence of `push` calls the parser's accumulator
buffer holds at most `MAX_LINE_LENGTH` (1024) bytes (first conjunct, which
is the invariant behind the buffer-length assertions on lines 38 and 49 of
`stream.py`), and whenever a CR LF is found in a buffer of at most 1024
bytes, the terminator end stays within 1024 (second conjunct, the
assertion on line 52). -/
theorem c10_buffer_bounded :
    (∀ pushes : List (List Nat),
      ((List.foldl ParserState.push ParserState.init pushes).buffer).length ≤
        maxLineLength) ∧
    (∀ (buf : List Nat) (t : Nat), buf.length ≤ maxLineLength →
      findCrlf buf = some t → t + 2 ≤ maxLineLength) := by
  constructor
  · intro pushes
    have key : ∀ (ps : List (List Nat)) (st : ParserState),
        st.buffer.length ≤ maxLineLength →
        ((List.foldl ParserState.push st ps).buffer).length ≤ maxLineLength := by
      intro ps
      induction ps with
      | nil => intro st h; simpa using h
      | cons p ps ih =>
        intro st h
        rw [List.foldl_cons]
        apply ih
        unfold ParserState.push
        split
        · exact h
        · exact parseLoop_buffer_le _ _ _ _ (by omega)
    exact key pushes ParserState.init (by simp [ParserState.init])
  · intro buf t hlen hf
    have := findCrlf_bound hf
    omega

/-- Witness for C10 at a concrete push sequence and buffer. -/
theorem c10_witness :
    ((List.foldl ParserState.push ParserState.init
      [[97, 13, 10]]).buffer).length ≤ maxLineLength ∧
    ([13, 10].length ≤ maxLineLength ∧ findCrlf [13, 10] = some 0 ∧
      0 + 2 ≤ maxLineLength) :=
  ⟨c10_buffer_bounded.1 [[97, 13, 10]],
    by decide, rfl, c10_buffer_bounded.2 [13, 10] 0 (by decide) rfl⟩

/-! ### Value types: session tokens and URL-safe Base64
(embedding `types.parse_session_token` and `base._serialize_session_token`) -/

/-- Errors raised by the value parsers of `types.py` and the dispatcher of
`base.py`.  `ParseError` messages are represented by dedicated constructors;
`assertionError` stands for a failing Python `assert`, `binasciiError` for
`binascii.Error` escaping `base64.urlsafe_b64decode`. -/
inductive PErr where
  | stringEmpty
  | invalidInt
  | invalidFloat
  | invalidBool
  | invalidVector
  | invalidColor
  | invalidBytes
  | invalidUri
  | uriNotAbsolute
  | useridLF
  | useridWhitespace
  | useridTooLong
  | invalidIdentifier
  | invalidEnum
  | invalidVersion
  | invalidTokenLength
  | invalidTokenChars
  | assertionError
  | binasciiError
  | listTupleMisalign
  | listMustBeLast
  | unsupportedAnn
  | unsupportedListAnn
  | unknownCommand
  deriving DecidableEq, Repr

/-- Embedding of `types._optional_empty`. -/
def optionalEmpty (value : List Nat) (optional : Bool) : Option (List Nat) :=
  if optional && value.isEmpty then none else some value

/-- Characters matched by the session-token regex `[A-Za-z0-9_-]`. -/
def isB64UrlChar (c : Nat) : Bool :=
  (65 ≤ c && c ≤ 90) || (97 ≤ c && c ≤ 122) || (48 ≤ c && c ≤ 57) ||
    c == 45 || c == 95

/-- URL-safe Base64 alphabet (`base64.urlsafe_b64encode`). -/
def b64Char (v : Nat) : Nat :=
  if v < 26 then 65 + v
  else if v < 52 then 97 + (v - 26)
  else if v < 62 then 48 + (v - 52)
  else if v = 62 then 45 else 95

/-- Value of one Base64 character under `base64.urlsafe_b64decode` (which
first translates `-`→`+` and `_`→`/` and then decodes with the standard
alphabet, so `+` and `/` in the input also decode). `none` for characters
outside the alphabet (CPython's lenient `a2b_base64` skips those). -/
def b64CharVal (c : Nat) : Option Nat :=
  if 65 ≤ c ∧ c ≤ 90 then some (c - 65)
  else if 97 ≤ c ∧ c ≤ 122 then some (26 + (c - 97))
  else if 48 ≤ c ∧ c ≤ 57 then some (52 + (c - 48))
  else if c = 45 ∨ c = 43 then some 62
  else if c = 95 ∨ c = 47 then some 63
  else none

/-- Embedding of `base64.urlsafe_b64encode` on byte lists. -/
def b64encode : List Nat → List Nat
  | b0 :: b1 :: b2 :: rest =>
    b64Char (b0 / 4) :: b64Char (b0 % 4 * 16 + b1 / 16) ::
      b64Char (b1 % 16 * 4 + b2 / 64) :: b64Char (b2 % 64) :: b64encode rest
  | [b0, b1] => [b64Char (b0 / 4), b64Char (b0 % 4 * 16 + b1 / 16),
      b64Char (b1 % 16 * 4), 61]
  | [b0] => [b64Char (b0 / 4), b64Char (b0 % 4 * 16), 61, 61]
  | [] => []

/-- Embedding of CPython's lenient `binascii.a2b_base64` (as called by
`base64.urlsafe_b64decode` with `strict_mode=False`): accumulate sextets,
emit three bytes per quad, handle `=` with two or three pending sextets by
emitting the final one or two bytes and ignoring the remainder, skip
non-alphabet characters, and fail on misplaced padding or leftover
sextets. -/
def a2bBase64Aux : List Nat → List Nat → Option (List Nat)
  | [], acc => if acc.isEmpty then some [] else none
  | c :: rest, acc =>
    if c = 61 then
      match acc with
      | [s1, s2] => some [s1 * 4 + s2 / 16]
      | [s1, s2, s3] => some [s1 * 4 + s2 / 16, s2 % 16 * 16 + s3 / 4]
      | _ => none
    else
      match b64CharVal c with
      | none => a2bBase64Aux rest acc
      | some v =>
        match acc with
        | [s1, s2, s3] =>
          match a2bBase64Aux rest [] with
          | some bs => some ((s1 * 4 + s2 / 16) :: (s2 % 16 * 16 + s3 / 4) ::
              (s3 % 4 * 64 + v) :: bs)
          | none => none
        | _ => a2bBase64Aux rest (acc ++ [v])

/-- Decoding entry point (`base64.urlsafe_b64decode`). -/
def a2bBase64 (cs : List Nat) : Option (List Nat) :=
  a2bBase64Aux cs []

/-- Embedding of `types.parse_session_token` (types.py lines 341-353):
length check, character-set check, decode of `raw + "=="`, and the
`assert len(decoded) == 32`. -/
def parse_session_token (value : List Nat) (optional : Bool) :
    Except PErr (Option (List Nat)) :=
  match optionalEmpty value optional with
  | none => .ok none
  | some raw =>
    if raw.length ≠ 43 then .error .invalidTokenLength
    else if ¬ (raw ≠ [] ∧ raw.all isB64UrlChar) then .error .invalidTokenChars
    else
      match a2bBase64 (raw ++ [61, 61]) with
      | none => .error .binasciiError
      | some decoded =>
        if decoded.length = 32 then .ok (some decoded)
        else .error .assertionError

/-- Python `str.rstrip("=")` on a character list. -/
def rstripEq61 (cs : List Nat) : List Nat :=
  (cs.reverse.dropWhile (fun c => c == 61)).reverse

/-- Embedding of `base._serialize_session_token` (equally
`net._format_session_token`): URL-safe Base64 with `=` padding stripped. -/
def serialize_session_token (value : List Nat) : List Nat :=
  rstripEq61 (b64encode value)

theorem isB64UrlChar_ne61 {c : Nat} (h : isB64UrlChar c = true) : c ≠ 61 := by
  simp only [isB64UrlChar, Bool.or_eq_true, Bool.and_eq_true, decide_eq_true_eq,
    beq_iff_eq] at h
  omega

theorem b64CharVal_of_valid {c : Nat} (h : isB64UrlChar c = true) :
    ∃ v, b64CharVal c = some v := by
  simp only [isB64UrlChar, Bool.or_eq_true, Bool.and_eq_true, decide_eq_true_eq,
    beq_iff_eq] at h
  unfold b64CharVal
  split_ifs with h1 h2 h3 h4 h5
  · exact ⟨_, rfl⟩
  · exact ⟨_, rfl⟩
  · exact ⟨_, rfl⟩
  · exact ⟨_, rfl⟩
  · exact ⟨_, rfl⟩
  · omega

theorem b64Char_ne61 (v : Nat) : b64Char v ≠ 61 := by
  unfold b64Char
  split_ifs <;> omega

theorem b64Char_valid (v : Nat) : isB64UrlChar (b64Char v) = true := by
  unfold b64Char
  split_ifs with h1 h2 h3 h4
  · simp only [isB64UrlChar, Bool.or_eq_true, Bool.and_eq_true,
      decide_eq_true_eq, beq_iff_eq]
    omega
  · simp only [isB64UrlChar, Bool.or_eq_true, Bool.and_eq_true,
      decide_eq_true_eq, beq_iff_eq]
    omega
  · simp only [isB64UrlChar, Bool.or_eq_true, Bool.and_eq_true,
      decide_eq_true_eq, beq_iff_eq]
    omega
  · decide
  · decide

theorem a2b_step {c v : Nat} (hv : b64CharVal c = some v)
    (rest acc : List Nat) (hlen : acc.length ≤ 2) :
    a2bBase64Aux (c :: rest) acc = a2bBase64Aux rest (acc ++ [v]) := by
  have hne : c ≠ 61 := by
    intro he
    rw [he, show b64CharVal 61 = none from rfl] at hv
    exact Option.noConfusion hv
  match acc, hlen with
  | [], _ =>
    conv_lhs => unfold a2bBase64Aux
    rw [if_neg hne, hv]
  | [s1], _ =>
    conv_lhs => unfold a2bBase64Aux
    rw [if_neg hne, hv]
  | [s1, s2], _ =>
    conv_lhs => unfold a2bBase64Aux
    rw [if_neg hne, hv]

theorem a2b_quad {c1 c2 c3 c4 v1 v2 v3 v4 : Nat}
    (h1 : b64CharVal c1 = some v1) (h2 : b64CharVal c2 = some v2)
    (h3 : b64CharVal c3 = some v3) (h4 : b64CharVal c4 = some v4)
    (rest : List Nat) :
    a2bBase64Aux (c1 :: c2 :: c3 :: c4 :: rest) [] =
      match a2bBase64Aux rest [] with
      | some bs => some ((v1 * 4 + v2 / 16) :: (v2 % 16 * 16 + v3 / 4) ::
          (v3 % 4 * 64 + v4) :: bs)
      | none => none := by
  rw [a2b_step h1 _ _ (by simp), a2b_step h2 _ _ (by simp),
    a2b_step h3 _ _ (by simp)]
  have hne : c4 ≠ 61 := by
    intro he
    rw [he, show b64CharVal 61 = none from rfl] at h4
    exact Option.noConfusion h4
  show a2bBase64Aux (c4 :: rest) [v1, v2, v3] = _
  conv_lhs => unfold a2bBase64Aux
  rw [if_neg hne, h4]

theorem a2b_quads : ∀ (n : Nat) (cs rest : List Nat), cs.length = 4 * n →
    (∀ c ∈ cs, isB64UrlChar c = true) →
    ∃ bs, bs.length = 3 * n ∧
      a2bBase64Aux (cs ++ rest) [] = (a2bBase64Aux rest []).map (bs ++ ·) := by
  intro n
  induction n with
  | zero =>
    intro cs rest hlen _
    refine ⟨[], rfl, ?_⟩
    rw [List.eq_nil_of_length_eq_zero hlen]
    simp
  | succ n ih =>
    intro cs rest hlen hvalid
    match cs, hlen with
    | c1 :: c2 :: c3 :: c4 :: cs', hlen =>
      obtain ⟨v1, hv1⟩ := b64CharVal_of_valid (hvalid c1 (by simp))
      obtain ⟨v2, hv2⟩ := b64CharVal_of_valid (hvalid c2 (by simp))
      obtain ⟨v3, hv3⟩ := b64CharVal_of_valid (hvalid c3 (by simp))
      obtain ⟨v4, hv4⟩ := b64CharVal_of_valid (hvalid c4 (by simp))
      have hlen' : cs'.length = 4 * n := by
        simp only [List.length_cons] at hlen
        omega
      obtain ⟨bs, hbsl, hbs⟩ := ih cs' rest hlen'
        (fun c hc => hvalid c (by simp [hc]))
      refine ⟨(v1 * 4 + v2 / 16) :: (v2 % 16 * 16 + v3 / 4) ::
        (v3 % 4 * 64 + v4) :: bs, by simp [hbsl]; ring, ?_⟩
      simp only [List.cons_append]
      rw [a2b_quad hv1 hv2 hv3 hv4, hbs]
      cases a2bBase64Aux rest [] <;> simp

theorem a2b_tail {c1 c2 c3 v1 v2 v3 : Nat}
    (h1 : b64CharVal c1 = some v1) (h2 : b64CharVal c2 = some v2)
    (h3 : b64CharVal c3 = some v3) :
    a2bBase64Aux [c1, c2, c3, 61, 61] [] =
      some [v1 * 4 + v2 / 16, v2 % 16 * 16 + v3 / 4] := by
  rw [show ([c1, c2, c3, 61, 61] : List Nat) = c1 :: c2 :: c3 :: [61, 61]
    from rfl]
  rw [a2b_step h1 _ _ (by simp), a2b_step h2 _ _ (by simp)]
  have hs3 : ([] : List Nat) ++ [v1] ++ [v2] = [v1, v2] := rfl
  rw [hs3]
  show a2bBase64Aux (c3 :: [61, 61]) [v1, v2] = _
  have hne : c3 ≠ 61 := by
    intro he
    rw [he, show b64CharVal 61 = none from rfl] at h3
    exact Option.noConfusion h3
  conv_lhs => unfold a2bBase64Aux
  rw [if_neg hne, h3]
  rfl

instance {ε α : Type} [DecidableEq ε] [DecidableEq α] :
    DecidableEq (Except ε α) := fun a b =>
  match a, b with
  | .ok x, .ok y =>
    if h : x = y then isTrue (by simp [h]) else isFalse (by simp [h])
  | .error x, .error y =>
    if h : x = y then isTrue (by simp [h]) else isFalse (by simp [h])
  | .ok _, .error _ => isFalse (by simp)
  | .error _, .ok _ => isFalse (by simp)

theorem b64encode_len : ∀ (n : Nat) (bs : List Nat), bs.length = 3 * n + 2 →
    ∃ chars, b64encode bs = chars ++ [61] ∧ chars.length = 4 * n + 3 ∧
      ∀ c ∈ chars, isB64UrlChar c = true ∧ c ≠ 61 := by
  intro n
  induction n with
  | zero =>
    intro bs hlen
    match bs, hlen with
    | [b0, b1], _ =>
      refine ⟨[b64Char (b0 / 4), b64Char (b0 % 4 * 16 + b1 / 16),
        b64Char (b1 % 16 * 4)], rfl, rfl, ?_⟩
      intro c hc
      simp only [List.mem_cons, List.not_mem_nil, or_false] at hc
      rcases hc with rfl | rfl | rfl <;>
        exact ⟨b64Char_valid _, b64Char_ne61 _⟩
  | succ n ih =>
    intro bs hlen
    match bs, hlen with
    | b0 :: b1 :: b2 :: bs', hlen =>
      have hlen' : bs'.length = 3 * n + 2 := by
        simp only [List.length_cons] at hlen
        omega
      obtain ⟨chars, hch, hchl, hchv⟩ := ih bs' hlen'
      refine ⟨b64Char (b0 / 4) :: b64Char (b0 % 4 * 16 + b1 / 16) ::
        b64Char (b1 % 16 * 4 + b2 / 64) :: b64Char (b2 % 64) :: chars, ?_, ?_, ?_⟩
      · show b64Char (b0 / 4) :: b64Char (b0 % 4 * 16 + b1 / 16) ::
          b64Char (b1 % 16 * 4 + b2 / 64) :: b64Char (b2 % 64) ::
          b64encode bs' = _
        rw [hch]
        rfl
      · simp only [List.length_cons, hchl]
        ring
      · intro c hc
        simp only [List.mem_cons] at hc
        rcases hc with rfl | rfl | rfl | rfl | hmem
        · exact ⟨b64Char_valid _, b64Char_ne61 _⟩
        · exact ⟨b64Char_valid _, b64Char_ne61 _⟩
        · exact ⟨b64Char_valid _, b64Char_ne61 _⟩
        · exact ⟨b64Char_valid _, b64Char_ne61 _⟩
        · exact hchv c hmem

theorem rstripEq61_append {chars : List Nat} (h : ∀ c ∈ chars, c ≠ 61) :
    rstripEq61 (chars ++ [61]) = chars := by
  unfold rstripEq61
  rw [List.reverse_append]
  show ((61 :: chars.reverse).dropWhile (fun c => c == 61)).reverse = chars
  rw [List.dropWhile_cons]
  simp only [beq_self_eq_true, if_true]
  have hdw : chars.reverse.dropWhile (fun c => c == 61) = chars.reverse := by
    cases hrev : chars.reverse with
    | nil => rfl
    | cons c cs =>
      have hcm : c ∈ chars := by
        have : c ∈ chars.reverse := by rw [hrev]; simp
        simpa using this
      rw [List.dropWhile_cons]
      rw [if_neg (by simpa using h c hcm)]
  rw [hdw, List.reverse_reverse]

/-- Claim C8: for every 43-character string over the URL-safe Base64
alphabet `[A-Za-z0-9_-]`, `parse_session_token` returns exactly 32 bytes
(so the internal length assertion never fires); for any input of length 42
or 44 it raises `ParseError` at the length check; the 43-character unpadded
encoding of the bytes `0..31` decodes back to exactly those bytes; and
serializing any 32-byte token yields the 43-character unpadded encoding,
all characters in the alphabet, with the single `=` pad stripped. -/
theorem c8_session_token :
    (∀ s : List Nat, s.length = 43 → (∀ c ∈ s, isB64UrlChar c = true) →
      ∃ bs, parse_session_token s false = .ok (some bs) ∧ bs.length = 32) ∧
    (∀ (s : List Nat) (optional : Bool), s.length = 42 ∨ s.length = 44 →
      parse_session_token s optional = .error .invalidTokenLength) ∧
    parse_session_token (serialize_session_token (List.range 32)) false =
      .ok (some (List.range 32)) ∧
    (∀ bs : List Nat, bs.length = 32 →
      (serialize_session_token bs).length = 43 ∧
      (∀ c ∈ serialize_session_token bs, isB64UrlChar c = true) ∧
      b64encode bs = serialize_session_token bs ++ [61]) := by
  refine ⟨?_, ?_, by decide, ?_⟩
  · intro s hlen hvalid
    have h40 : (s.take 40).length = 4 * 10 := by
      rw [List.length_take]
      omega
    obtain ⟨bs, hbl, hbs⟩ := a2b_quads 10 (s.take 40) (s.drop 40 ++ [61, 61])
      h40 (fun c hc => hvalid c (List.mem_of_mem_take hc))
    have h3 : (s.drop 40).length = 3 := by
      rw [List.length_drop]
      omega
    obtain ⟨c1, c2, c3, hdrop⟩ := List.length_eq_three.mp h3
    obtain ⟨v1, hv1⟩ := b64CharVal_of_valid
      (hvalid c1 (List.mem_of_mem_drop (by rw [hdrop]; simp)))
    obtain ⟨v2, hv2⟩ := b64CharVal_of_valid
      (hvalid c2 (List.mem_of_mem_drop (by rw [hdrop]; simp)))
    obtain ⟨v3, hv3⟩ := b64CharVal_of_valid
      (hvalid c3 (List.mem_of_mem_drop (by rw [hdrop]; simp)))
    have htail : a2bBase64Aux (s.drop 40 ++ [61, 61]) [] =
        some [v1 * 4 + v2 / 16, v2 % 16 * 16 + v3 / 4] := by
      rw [hdrop]
      exact a2b_tail hv1 hv2 hv3
    have hdec : a2bBase64 (s ++ [61, 61]) =
        some (bs ++ [v1 * 4 + v2 / 16, v2 % 16 * 16 + v3 / 4]) := by
      unfold a2bBase64
      rw [show s ++ [61, 61] = s.take 40 ++ (s.drop 40 ++ [61, 61]) by
        rw [← List.append_assoc, List.take_append_drop]]
      rw [hbs, htail]
      rfl
    refine ⟨bs ++ [v1 * 4 + v2 / 16, v2 % 16 * 16 + v3 / 4], ?_, by
      simp [hbl]⟩
    have hoe : optionalEmpty s false = some s := rfl
    unfold parse_session_token
    rw [hoe]
    dsimp only
    have hc1 : ¬ (s.length ≠ 43) := by omega
    rw [if_neg hc1]
    have hc2 : ¬ ¬ (s ≠ [] ∧ s.all isB64UrlChar = true) :=
      not_not_intro ⟨fun hnil => by rw [hnil] at hlen; simp at hlen,
        List.all_eq_true.mpr hvalid⟩
    rw [if_neg hc2, hdec]
    have hfin : (bs ++ [v1 * 4 + v2 / 16, v2 % 16 * 16 + v3 / 4]).length = 32 := by
      rw [List.length_append, hbl]
      rfl
    dsimp only
    rw [if_pos hfin]
  · intro s optional hcase
    have hne : s ≠ [] := by
      intro hnil
      rw [hnil] at hcase
      simp at hcase
    have hoe : optionalEmpty s optional = some s := by
      unfold optionalEmpty
      rw [if_neg (by simp [hne])]
    unfold parse_session_token
    rw [hoe]
    dsimp only
    have hc1 : s.length ≠ 43 := by omega
    rw [if_pos hc1]
  · intro bs hlen
    have h32 : bs.length = 3 * 10 + 2 := by omega
    obtain ⟨chars, hch, hchl, hchv⟩ := b64encode_len 10 bs h32
    have hser : serialize_session_token bs = chars := by
      unfold serialize_session_token
      rw [hch]
      exact rstripEq61_append (fun c hc => (hchv c hc).2)
    refine ⟨by rw [hser, hchl], ?_, by rw [hser, hch]⟩
    intro c hc
    rw [hser] at hc
    exact (hchv c hc).1

/-- Witness for C8 at the concrete token obtained by serializing the bytes
`0..31`: its length is 43, its characters are in the alphabet, parsing
returns 32 bytes, a 42-character input errors, and the serialization facts
hold for the token bytes `0..31`. -/
theorem c8_witness :
    (serialize_session_token (List.range 32)).length = 43 ∧
    (∀ c ∈ serialize_session_token (List.range 32), isB64UrlChar c = true) ∧
    (∃ bs, parse_session_token (serialize_session_token (List.range 32))
      false = .ok (some bs) ∧ bs.length = 32) ∧
    parse_session_token (List.replicate 42 65) false =
      .error .invalidTokenLength ∧
    b64encode (List.range 32) =
      serialize_session_token (List.range 32) ++ [61] := by
  have h32 : (List.range 32).length = 32 := by simp
  obtain ⟨hl, hv, he⟩ := c8_session_token.2.2.2 (List.range 32) h32
  refine ⟨hl, hv, ?_, ?_, he⟩
  · exact c8_session_token.1 (serialize_session_token (List.range 32)) hl hv
  · exact c8_session_token.2.1 (List.replicate 42 65) false
      (Or.inl (by simp))
/-!
## Dispatcher and type parsers (`base.py`, `common/types.py`)

Strings stay lists of Unicode code points.  Python `float(raw)` values are
represented by the accepted decimal literal itself (the literal determines
the float, and no claim depends on float arithmetic).  Enum members are
represented by their string value under a per-enum constructor, `bytes`
results by lists of byte values, and Python `None` by `Value.vNone`.
-/

/-- `\d` on ASCII digits, as used by the anchored regexes in `types.py`. -/
def isDigit (c : Nat) : Bool := 48 ≤ c && c ≤ 57

/-- ASCII letters (`url[0].isascii() and url[0].isalpha()` in `urlsplit`). -/
def isAsciiAlpha (c : Nat) : Bool := (65 ≤ c && c ≤ 90) || (97 ≤ c && c ≤ 122)

/-- `[A-Za-z0-9_]`, the word charset of `_IDENTIFIER_RE`. -/
def isWordChar (c : Nat) : Bool := isAsciiAlpha c || isDigit c || c == 95

/-- `[0-9a-fA-F]`, the charset of `_HEX_RE` and `_COLOR_RE`. -/
def isHexDigit (c : Nat) : Bool :=
  isDigit c || (97 ≤ c && c ≤ 102) || (65 ≤ c && c ≤ 70)

/-- Python's Unicode whitespace set: `str.isspace()`, which is also what a
`\s` class in a `str` regex matches. -/
def pySpace (c : Nat) : Bool :=
  (9 ≤ c && c ≤ 13) || (28 ≤ c && c ≤ 32) || c == 133 || c == 160 ||
  c == 5760 || (8192 ≤ c && c ≤ 8202) || c == 8232 || c == 8233 ||
  c == 8239 || c == 8287 || c == 12288

/-- `int(raw)` on a decimal digit string. -/
def natOfDigits (ds : List Nat) : Nat :=
  ds.foldl (fun acc d => acc * 10 + (d - 48)) 0

/-- `_INT_RE = ^(0|[1-9][0-9]*)$`. -/
def intRe (s : List Nat) : Bool :=
  match s with
  | [] => false
  | c :: rest =>
    (c == 48 && rest.isEmpty) || ((49 ≤ c && c ≤ 57) && rest.all isDigit)

/-- The sign-stripped float body `\d+(?:\.\d+)?`, matched against all of `t`. -/
def floatBodyCheck (t : List Nat) : Bool :=
  !(t.takeWhile isDigit).isEmpty &&
    (match t.dropWhile isDigit with
     | [] => true
     | 46 :: fs => !fs.isEmpty && fs.all isDigit
     | _ => false)

/-- `_FLOAT_RE = ^-?\d+(?:\.\d+)?$` (fullmatch). -/
def floatRe (s : List Nat) : Bool :=
  match s with
  | 45 :: t => floatBodyCheck t
  | t => floatBodyCheck t

/-- Greedy match of one `_FLOAT_BODY` group at the front of `s`, returning the
matched literal and the rest.  The surrounding vector pattern continues with
`\s` or `)`, which cannot extend a digit run, so greedy matching agrees with
the regex engine's backtracking here. -/
def takeFloatBody (sign t : List Nat) : Option (List Nat × List Nat) :=
  if (t.takeWhile isDigit).isEmpty then none
  else
    match t.dropWhile isDigit with
    | c :: r2 =>
      if c = 46 then
        if (r2.takeWhile isDigit).isEmpty then
          some (sign ++ t.takeWhile isDigit, c :: r2)
        else
          some (sign ++ t.takeWhile isDigit ++ 46 :: r2.takeWhile isDigit,
            r2.dropWhile isDigit)
      else some (sign ++ t.takeWhile isDigit, c :: r2)
    | [] => some (sign ++ t.takeWhile isDigit, [])

/-- Dispatch of `takeFloatBody` on the optional leading sign. -/
def takeFloat (s : List Nat) : Option (List Nat × List Nat) :=
  match s with
  | 45 :: r => takeFloatBody [45] r
  | _ => takeFloatBody [] s

/-- `^\(\s*(F)\s+(F)\s*\)$` of `_parse_vec` with `count=2`. -/
def vec2Re (raw : List Nat) : Option (List Nat × List Nat) :=
  match raw with
  | 40 :: r0 =>
    match takeFloat (r0.dropWhile pySpace) with
    | none => none
    | some (f1, r1) =>
      if (r1.takeWhile pySpace).isEmpty then none
      else
        match takeFloat (r1.dropWhile pySpace) with
        | none => none
        | some (f2, r2) =>
          if r2.dropWhile pySpace == [41] then some (f1, f2) else none
  | _ => none

/-- `^\(\s*(F)\s+(F)\s+(F)\s*\)$` of `_parse_vec` with `count=3`. -/
def vec3Re (raw : List Nat) : Option (List Nat × List Nat × List Nat) :=
  match raw with
  | 40 :: r0 =>
    match takeFloat (r0.dropWhile pySpace) with
    | none => none
    | some (f1, r1) =>
      if (r1.takeWhile pySpace).isEmpty then none
      else
        match takeFloat (r1.dropWhile pySpace) with
        | none => none
        | some (f2, r2) =>
          if (r2.takeWhile pySpace).isEmpty then none
          else
            match takeFloat (r2.dropWhile pySpace) with
            | none => none
            | some (f3, r3) =>
              if r3.dropWhile pySpace == [41] then some (f1, f2, f3) else none
  | _ => none

/-- `_COLOR_RE = ^#[0-9a-fA-F]{6}$`. -/
def colorRe (s : List Nat) : Bool :=
  match s with
  | 35 :: rest => rest.length == 6 && rest.all isHexDigit
  | _ => false

/-- `_HEX_RE = ^[0-9a-fA-F]+$`. -/
def hexRe (s : List Nat) : Bool := !s.isEmpty && s.all isHexDigit

/-- `str.lower()` restricted to ASCII, which is all `parse_color` feeds it. -/
def asciiLower (c : Nat) : Nat := if 65 ≤ c && c ≤ 90 then c + 32 else c

/-- The value of one hex digit (`bytes.fromhex`). -/
def hexVal (c : Nat) : Nat :=
  if 48 ≤ c && c ≤ 57 then c - 48
  else if 97 ≤ c && c ≤ 102 then c - 87
  else c - 55

/-- `bytes.fromhex` on an even-length hex string. -/
def fromHexPairs : List Nat → List Nat
  | [] => []
  | [_] => []
  | c1 :: c2 :: rest => (hexVal c1 * 16 + hexVal c2) :: fromHexPairs rest

/-- `_IDENTIFIER_RE = ^[A-Za-z0-9_]+(-[A-Za-z0-9_]+)*$`: nonempty word groups
joined by single dashes. -/
def identifierRe (s : List Nat) : Bool :=
  (s.splitOn 45).all fun g => !g.isEmpty && g.all isWordChar

/-- `_RESERVED_RE = ^\$[A-Za-z0-9_]+(-[A-Za-z0-9_]+)*$`. -/
def reservedRe (s : List Nat) : Bool :=
  match s with
  | 36 :: rest => identifierRe rest
  | _ => false

/-- Scheme charset of `urllib.parse.urlsplit`. -/
def isSchemeChar (c : Nat) : Bool :=
  isAsciiAlpha c || isDigit c || c == 43 || c == 45 || c == 46

/-- Whether `urlsplit(s).scheme` is nonempty: the first `:` exists, appears
after at least one character, the first character is an ASCII letter, and
everything before the `:` is a scheme character (CPython `urlsplit`). -/
def hasScheme (s : List Nat) : Bool :=
  let pre := s.takeWhile fun c => c != 58
  pre.length != s.length && !pre.isEmpty &&
    (match pre with
     | c :: _ => isAsciiAlpha c
     | [] => false) && pre.all isSchemeChar

/-- `str.strip()` (strip Python whitespace from both ends). -/
def pyStrip (s : List Nat) : List Nat :=
  ((s.dropWhile pySpace).reverse.dropWhile pySpace).reverse

/-- Scalar annotations that `_parse_value` dispatches on: the `parser_map`
keys, `ZString`, and a stand-in for any other annotation (Python `dict`,
nested unions, ...), which `_parse_value` rejects as unsupported. -/
inductive BaseT where
  | string
  | zstring
  | int
  | float
  | bool
  | vec2
  | vec3
  | euler
  | color
  | bytes16
  | bytes32
  | bytes64
  | anyValue
  | uri
  | userid
  | objectId
  | geomId
  | intentId
  | tag
  | tapKind
  | sizeMode
  | trackMode
  | reparentMode
  | anchor
  | version
  | sessionToken
  | unsupported
  deriving DecidableEq, Repr

/-- The inner annotation of a `list[...]` parameter: `list[T]`, a
`list[tuple[...]]`, or a malformed `list` annotation (`_list_inner` returns
`None`, e.g. bare `list`). -/
inductive ListInner where
  | elem (t : BaseT)
  | tup (ts : List BaseT)
  | bad
  deriving DecidableEq, Repr

/-- A parameter annotation after `_unwrap_optional`: scalar or list. -/
inductive AnnElem where
  | base (t : BaseT)
  | listOf (inner : ListInner)
  deriving DecidableEq, Repr

/-- `_is_list_annotation` on the unwrapped annotation. -/
def AnnElem.isListAnn : AnnElem → Bool
  | .listOf _ => true
  | .base _ => false

/-- One declared handler parameter: the `optional` flag from
`_unwrap_optional` plus the unwrapped annotation. -/
structure Param where
  optional : Bool
  elem : AnnElem
  deriving DecidableEq, Repr

/-- Runtime values a parser can hand to the handler. -/
inductive Value where
  | vNone
  | vStr (s : List Nat)
  | vInt (n : Nat)
  | vFloat (lit : List Nat)
  | vBool (b : Bool)
  | vVec2 (x y : List Nat)
  | vVec3 (x y z : List Nat)
  | vEuler (pan tilt roll : List Nat)
  | vBytes (bs : List Nat)
  | vTapKind (s : List Nat)
  | vSizeMode (s : List Nat)
  | vTrackMode (s : List Nat)
  | vReparentMode (s : List Nat)
  | vAnchor (s : List Nat)
  | vList (vs : List Value)
  | vTuple (vs : List Value)

/-- `types.parse_string`. -/
def parse_string (value : List Nat) (optional : Bool) : Except PErr Value :=
  match optionalEmpty value optional with
  | none => .ok .vNone
  | some raw =>
    if raw.isEmpty then .error .stringEmpty else .ok (.vStr raw)

/-- `types.parse_zstring` (accepts anything, ignores `optional`). -/
def parse_zstring (value : List Nat) (optional : Bool) : Except PErr Value :=
  .ok (.vStr value)

/-- `types.parse_int`. -/
def parse_int (value : List Nat) (optional : Bool) : Except PErr Value :=
  match optionalEmpty value optional with
  | none => .ok .vNone
  | some raw =>
    if intRe raw then .ok (.vInt (natOfDigits raw)) else .error .invalidInt

/-- `types.parse_float`; the accepted literal stands for `float(raw)`. -/
def parse_float (value : List Nat) (optional : Bool) : Except PErr Value :=
  match optionalEmpty value optional with
  | none => .ok .vNone
  | some raw =>
    if floatRe raw then .ok (.vFloat raw) else .error .invalidFloat

/-- `types.parse_bool`. -/
def parse_bool (value : List Nat) (optional : Bool) : Except PErr Value :=
  match optionalEmpty value optional with
  | none => .ok .vNone
  | some raw =>
    if raw = [116, 114, 117, 101] then .ok (.vBool true)
    else if raw = [102, 97, 108, 115, 101] then .ok (.vBool false)
    else .error .invalidBool

/-- `types.parse_vec2`. -/
def parse_vec2 (value : List Nat) (optional : Bool) : Except PErr Value :=
  match optionalEmpty value optional with
  | none => .ok .vNone
  | some raw =>
    match vec2Re raw with
    | some (x, y) => .ok (.vVec2 x y)
    | none => .error .invalidVector

/-- `types.parse_vec3`. -/
def parse_vec3 (value : List Nat) (optional : Bool) : Except PErr Value :=
  match optionalEmpty value optional with
  | none => .ok .vNone
  | some raw =>
    match vec3Re raw with
    | some (x, y, z) => .ok (.vVec3 x y z)
    | none => .error .invalidVector

/-- `types.parse_euler` (a `Vec3` parse whose components become an `Euler`). -/
def parse_euler (value : List Nat) (optional : Bool) : Except PErr Value :=
  match optionalEmpty value optional with
  | none => .ok .vNone
  | some raw =>
    match vec3Re raw with
    | some (x, y, z) => .ok (.vEuler x y z)
    | none => .error .invalidVector

/-- `types.parse_color`. -/
def parse_color (value : List Nat) (optional : Bool) : Except PErr Value :=
  match optionalEmpty value optional with
  | none => .ok .vNone
  | some raw =>
    if colorRe raw then .ok (.vStr (raw.map asciiLower))
    else .error .invalidColor

/-- `types.parse_bytes`. -/
def parse_bytes (value : List Nat) (optional : Bool) (length : Nat) :
    Except PErr Value :=
  match optionalEmpty value optional with
  | none => .ok .vNone
  | some raw =>
    if raw.length = length * 2 ∧ hexRe raw then .ok (.vBytes (fromHexPairs raw))
    else .error .invalidBytes

/-- `types.parse_any` (accepts anything, ignores `optional`). -/
def parse_any (value : List Nat) (optional : Bool) : Except PErr Value :=
  .ok (.vStr value)

/-- `types.parse_uri`. -/
def parse_uri (value : List Nat) (optional : Bool) : Except PErr Value :=
  match optionalEmpty value optional with
  | none => .ok .vNone
  | some raw =>
    if containsControl raw || raw.any pySpace then .error .invalidUri
    else if !hasScheme raw then .error .uriNotAbsolute
    else .ok (.vStr raw)

/-- `types.parse_userid`. -/
def parse_userid (value : List Nat) (optional : Bool) : Except PErr Value :=
  match optionalEmpty value optional with
  | none => .ok .vNone
  | some raw =>
    if 10 ∈ raw then .error .useridLF
    else if raw ≠ pyStrip raw then .error .useridWhitespace
    else if 128 ≤ raw.length then .error .useridTooLong
    else .ok (.vStr raw)

/-- `types._parse_identifier` (shared by object/geom/intent/tag ids). -/
def parseIdentifier (value : List Nat) (optional : Bool) : Except PErr Value :=
  match optionalEmpty value optional with
  | none => .ok .vNone
  | some raw =>
    if identifierRe raw || reservedRe raw then .ok (.vStr raw)
    else .error .invalidIdentifier

/-- `types._parse_enum` plus the enum-member constructor. -/
def parseEnum (value : List Nat) (optional : Bool)
    (allowed : List (List Nat)) (mk : List Nat → Value) : Except PErr Value :=
  match optionalEmpty value optional with
  | none => .ok .vNone
  | some raw =>
    if raw ∈ allowed then .ok (mk raw) else .error .invalidEnum

/-- The `TapKind` enum values. -/
def tapKindValues : List (List Nat) :=
  [[112, 114, 105, 109, 97, 114, 121],
   [115, 101, 99, 111, 110, 100, 97, 114, 121]]

/-- The `SizeMode` enum values. -/
def sizeModeValues : List (List Nat) :=
  [[115, 116, 114, 101, 116, 99, 104],
   [99, 111, 118, 101, 114],
   [99, 111, 110, 116, 97, 105, 110],
   [102, 105, 120, 101, 100, 45, 119, 105, 100, 116, 104],
   [102, 105, 120, 101, 100, 45, 104, 101, 105, 103, 104, 116]]

/-- The `TrackMode` enum values. -/
def trackModeValues : List (List Nat) :=
  [[112, 108, 97, 110, 101], [102, 111, 99, 117, 115]]

/-- The `ReparentMode` enum values. -/
def reparentModeValues : List (List Nat) :=
  [[119, 111, 114, 108, 100], [108, 111, 99, 97, 108]]

/-- The `Anchor` enum values. -/
def anchorValues : List (List Nat) :=
  [[116, 111, 112, 45, 108, 101, 102, 116],
   [116, 111, 112, 45, 99, 101, 110, 116, 101, 114],
   [116, 111, 112, 45, 114, 105, 103, 104, 116],
   [99, 101, 110, 116, 101, 114, 45, 108, 101, 102, 116],
   [99, 101, 110, 116, 101, 114, 45, 99, 101, 110, 116, 101, 114],
   [99, 101, 110, 116, 101, 114, 45, 114, 105, 103, 104, 116],
   [98, 111, 116, 116, 111, 109, 45, 108, 101, 102, 116],
   [98, 111, 116, 116, 111, 109, 45, 99, 101, 110, 116, 101, 114],
   [98, 111, 116, 116, 111, 109, 45, 114, 105, 103, 104, 116]]

/-- `types.parse_version`. -/
def parse_version (value : List Nat) (optional : Bool) : Except PErr Value :=
  match optionalEmpty value optional with
  | none => .ok .vNone
  | some raw =>
    match raw with
    | c :: d :: ds =>
      if c = 118 ∧ ((49 ≤ d && d ≤ 57) && ds.all isDigit) = true then
        .ok (.vInt (natOfDigits (d :: ds)))
      else .error .invalidVersion
    | _ => .error .invalidVersion

/-- `types.parse_session_token` packaged as a dispatcher value. -/
def parseSessionTokenValue (value : List Nat) (optional : Bool) :
    Except PErr Value :=
  match parse_session_token value optional with
  | .error e => .error e
  | .ok none => .ok .vNone
  | .ok (some bs) => .ok (.vBytes bs)

/-- `ProtocolBase._parse_value`: the zstring check, the `parser_map`
dispatch, and the unsupported-annotation error. -/
def parseValue : BaseT → List Nat → Bool → Except PErr Value
  | .zstring, v, o => parse_zstring v o
  | .string, v, o => parse_string v o
  | .int, v, o => parse_int v o
  | .float, v, o => parse_float v o
  | .bool, v, o => parse_bool v o
  | .vec2, v, o => parse_vec2 v o
  | .vec3, v, o => parse_vec3 v o
  | .euler, v, o => parse_euler v o
  | .color, v, o => parse_color v o
  | .bytes16, v, o => parse_bytes v o 16
  | .bytes32, v, o => parse_bytes v o 32
  | .bytes64, v, o => parse_bytes v o 64
  | .anyValue, v, o => parse_any v o
  | .uri, v, o => parse_uri v o
  | .userid, v, o => parse_userid v o
  | .objectId, v, o => parseIdentifier v o
  | .geomId, v, o => parseIdentifier v o
  | .intentId, v, o => parseIdentifier v o
  | .tag, v, o => parseIdentifier v o
  | .tapKind, v, o => parseEnum v o tapKindValues .vTapKind
  | .sizeMode, v, o => parseEnum v o sizeModeValues .vSizeMode
  | .trackMode, v, o => parseEnum v o trackModeValues .vTrackMode
  | .reparentMode, v, o => parseEnum v o reparentModeValues .vReparentMode
  | .anchor, v, o => parseEnum v o anchorValues .vAnchor
  | .version, v, o => parse_version v o
  | .sessionToken, v, o => parseSessionTokenValue v o
  | .unsupported, _, _ => .error .unsupportedAnn

/-- The per-item loop of `_parse_list` for a scalar element annotation. -/
def parseValuesSeq (t : BaseT) : List (List Nat) → Except PErr (List Value)
  | [] => .ok []
  | v :: vs =>
    match parseValue t v false with
    | .error e => .error e
    | .ok w =>
      match parseValuesSeq t vs with
      | .error e => .error e
      | .ok ws => .ok (w :: ws)

/-- One tuple of `_parse_list`: `zip(typeset, chunk, strict=False)` parsed
left to right with `optional=False`. -/
def parseTuple (ts : List BaseT) (chunk : List (List Nat)) :
    Except PErr (List Value) :=
  match ts, chunk with
  | [], _ => .ok []
  | _ :: _, [] => .ok []
  | t :: ts', c :: cs =>
    match parseValue t c false with
    | .error e => .error e
    | .ok v =>
      match parseTuple ts' cs with
      | .error e => .error e
      | .ok vs => .ok (v :: vs)

/-- The chunking loop of `_parse_list` over `range(0, len(values),
len(typeset))`; `fuel` bounds the iteration count (callers pass
`values.length`, enough since each step consumes at least one value). -/
def parseTupleChunks (ts : List BaseT) : Nat → List (List Nat) →
    Except PErr (List Value)
  | _, [] => .ok []
  | 0, _ :: _ => .ok []
  | fuel + 1, v :: vs =>
    match parseTuple ts ((v :: vs).take ts.length) with
    | .error e => .error e
    | .ok ws =>
      match parseTupleChunks ts fuel ((v :: vs).drop ts.length) with
      | .error e => .error e
      | .ok rest => .ok (.vTuple ws :: rest)

/-- `ProtocolBase._parse_list`. -/
def parseList : ListInner → List (List Nat) → Except PErr Value
  | .bad, _ => .error .unsupportedListAnn
  | .tup ts, values =>
    if ts.isEmpty then .ok (.vList [])
    else if values.length % ts.length ≠ 0 then .error .listTupleMisalign
    else
      match parseTupleChunks ts values.length values with
      | .error e => .error e
      | .ok vs => .ok (.vList vs)
  | .elem t, values =>
    match parseValuesSeq t values with
    | .error e => .error e
    | .ok vs => .ok (.vList vs)

/-- `ProtocolBase._parse_args`: scalars take `args[index]` or `""` when the
args run out; a list annotation must be the last parameter and swallows all
remaining args, returning early. -/
def parseArgs : List Param → List (List Nat) → Except PErr (List Value)
  | [], _ => .ok []
  | p :: ps, args =>
    match p.elem with
    | .listOf inner =>
      if ps.isEmpty then
        match parseList inner args with
        | .error e => .error e
        | .ok v => .ok [v]
      else .error .listMustBeLast
    | .base t =>
      match parseValue t (args.headD []) p.optional with
      | .error e => .error e
      | .ok v =>
        match parseArgs ps args.tail with
        | .error e => .error e
        | .ok vs => .ok (v :: vs)

/-- One `@command` method as `__init_subclass__` sees it: command name,
whether the return annotation is a `None` form, whether the first parameter
is `self`, and the annotations of the remaining parameters. -/
structure HandlerDecl where
  cmdName : List Nat
  returnsNone : Bool
  hasSelf : Bool
  params : List Param
  deriving DecidableEq, Repr

/-- The `TypeError`s `__init_subclass__` can raise. -/
inductive RegErr where
  | mustReturnNone
  | mustBeInstanceMethod
  | noOptionalList
  deriving DecidableEq, Repr

/-- `ProtocolBase.__init_subclass__`: validate each `@command` handler in
declaration order and collect the registry (a Python dict keyed by command
name; a later duplicate overwrites, which `lookupCmd` mirrors). -/
def initSubclass : List HandlerDecl →
    Except RegErr (List (List Nat × List Param))
  | [] => .ok []
  | d :: ds =>
    if !d.returnsNone then .error .mustReturnNone
    else if !d.hasSelf then .error .mustBeInstanceMethod
    else if d.params.any (fun p => p.optional && p.elem.isListAnn) then
      .error .noOptionalList
    else
      match initSubclass ds with
      | .error e => .error e
      | .ok reg => .ok ((d.cmdName, d.params) :: reg)

/-- `ProtocolBase._lookup_command` on one registry: dict lookup, where the
last insertion for a name wins. -/
def lookupCmd (reg : List (List Nat × List Param)) (cmd : List Nat) :
    Option (List Param) :=
  match reg with
  | [] => none
  | (n, ps) :: rest =>
    match lookupCmd rest cmd with
    | some r => some r
    | none => if n = cmd then some ps else none

/-- Outcome of `execute_command`: either `handle_error(cmd, message, args)`
or the handler invocation with the parsed values. -/
inductive ExecResult where
  | errorCall (e : PErr)
  | invoke (params : List Param) (vals : List Value)

/-- `ProtocolBase.execute_command`. -/
def executeCommand (reg : List (List Nat × List Param)) (cmd : List Nat)
    (args : List (List Nat)) : ExecResult :=
  match lookupCmd reg cmd with
  | none => .errorCall .unknownCommand
  | some params =>
    match parseArgs params args with
    | .error e => .errorCall e
    | .ok vals => .invoke params vals

/-- Well-typedness of a scalar value for an annotation: exactly the shapes
the corresponding parser can return (`vNone` only when optional, and not
from `zstring`/`AnyValue`, which never return `None`). -/
def scalarOk : BaseT → Bool → Value → Bool
  | .string, opt, .vNone => opt
  | .string, _, .vStr s => !s.isEmpty
  | .zstring, _, .vStr _ => true
  | .int, opt, .vNone => opt
  | .int, _, .vInt _ => true
  | .float, opt, .vNone => opt
  | .float, _, .vFloat lit => floatRe lit
  | .bool, opt, .vNone => opt
  | .bool, _, .vBool _ => true
  | .vec2, opt, .vNone => opt
  | .vec2, _, .vVec2 x y => floatRe x && floatRe y
  | .vec3, opt, .vNone => opt
  | .vec3, _, .vVec3 x y z => floatRe x && floatRe y && floatRe z
  | .euler, opt, .vNone => opt
  | .euler, _, .vEuler p t r => floatRe p && floatRe t && floatRe r
  | .color, opt, .vNone => opt
  | .color, _, .vStr s => colorRe s && s.all fun c => !(65 ≤ c && c ≤ 90)
  | .bytes16, opt, .vNone => opt
  | .bytes16, _, .vBytes bs => bs.length == 16 && bs.all (· < 256)
  | .bytes32, opt, .vNone => opt
  | .bytes32, _, .vBytes bs => bs.length == 32 && bs.all (· < 256)
  | .bytes64, opt, .vNone => opt
  | .bytes64, _, .vBytes bs => bs.length == 64 && bs.all (· < 256)
  | .anyValue, _, .vStr _ => true
  | .uri, opt, .vNone => opt
  | .uri, _, .vStr s => !containsControl s && !s.any pySpace && hasScheme s
  | .userid, opt, .vNone => opt
  | .userid, _, .vStr s => decide (s.length < 128 ∧ 10 ∉ s ∧ pyStrip s = s)
  | .objectId, opt, .vNone => opt
  | .objectId, _, .vStr s => identifierRe s || reservedRe s
  | .geomId, opt, .vNone => opt
  | .geomId, _, .vStr s => identifierRe s || reservedRe s
  | .intentId, opt, .vNone => opt
  | .intentId, _, .vStr s => identifierRe s || reservedRe s
  | .tag, opt, .vNone => opt
  | .tag, _, .vStr s => identifierRe s || reservedRe s
  | .tapKind, opt, .vNone => opt
  | .tapKind, _, .vTapKind s => decide (s ∈ tapKindValues)
  | .sizeMode, opt, .vNone => opt
  | .sizeMode, _, .vSizeMode s => decide (s ∈ sizeModeValues)
  | .trackMode, opt, .vNone => opt
  | .trackMode, _, .vTrackMode s => decide (s ∈ trackModeValues)
  | .reparentMode, opt, .vNone => opt
  | .reparentMode, _, .vReparentMode s => decide (s ∈ reparentModeValues)
  | .anchor, opt, .vNone => opt
  | .anchor, _, .vAnchor s => decide (s ∈ anchorValues)
  | .version, opt, .vNone => opt
  | .version, _, .vInt n => decide (1 ≤ n)
  | .sessionToken, opt, .vNone => opt
  | .sessionToken, _, .vBytes bs => bs.length == 32
  | _, _, _ => false

/-- Well-typedness of one parsed tuple for a `tuple[...]` typeset. -/
def tupleOk (ts : List BaseT) (v : Value) : Bool :=
  match v with
  | .vTuple ws =>
    ws.length == ts.length && (ts.zip ws).all fun p => scalarOk p.1 false p.2
  | _ => false

/-- Well-typedness of a parsed list value for a list annotation. -/
def listInnerOk : ListInner → Value → Bool
  | .bad, _ => false
  | .elem t, .vList vs => vs.all (scalarOk t false)
  | .tup ts, .vList vs => if ts.isEmpty then vs.isEmpty else vs.all (tupleOk ts)
  | _, _ => false

/-- Well-typedness of one handler argument for its declared parameter. -/
def annOk (p : Param) (v : Value) : Bool :=
  match p.elem with
  | .base t => scalarOk t p.optional v
  | .listOf inner => listInnerOk inner v
theorem isEmptyFalse_of_ne {l : List Nat} (h : l ≠ []) : l.isEmpty = false := by
  cases l with
  | nil => exact absurd rfl h
  | cons a t => rfl

theorem optionalEmpty_none {v : List Nat} {o : Bool}
    (h : optionalEmpty v o = none) : o = true := by
  unfold optionalEmpty at h
  split at h
  · rename_i hc
    exact ((Bool.and_eq_true _ _).mp hc).1
  · cases h

theorem takeWhile_append_all {p : Nat → Bool} {xs : List Nat} (ys : List Nat)
    (h : ∀ a ∈ xs, p a = true) :
    (xs ++ ys).takeWhile p = xs ++ ys.takeWhile p := by
  induction xs with
  | nil => simp
  | cons x xs ih =>
    have hx : p x = true := h x (by simp)
    simp [List.takeWhile_cons, hx, ih fun a ha => h a (by simp [ha])]

theorem dropWhile_append_all {p : Nat → Bool} {xs : List Nat} (ys : List Nat)
    (h : ∀ a ∈ xs, p a = true) :
    (xs ++ ys).dropWhile p = ys.dropWhile p := by
  induction xs with
  | nil => simp
  | cons x xs ih =>
    have hx : p x = true := h x (by simp)
    simp [List.dropWhile_cons, hx, ih fun a ha => h a (by simp [ha])]

theorem floatBodyCheck_digits {ds : List Nat} (hne : ds ≠ [])
    (hall : ∀ a ∈ ds, isDigit a = true) : floatBodyCheck ds = true := by
  unfold floatBodyCheck
  rw [List.takeWhile_eq_self_iff.mpr hall, List.dropWhile_eq_nil_iff.mpr hall]
  simp [isEmptyFalse_of_ne hne]

theorem floatBodyCheck_frac {ds fs : List Nat} (hd : ds ≠ []) (hf : fs ≠ [])
    (had : ∀ a ∈ ds, isDigit a = true) (haf : ∀ a ∈ fs, isDigit a = true) :
    floatBodyCheck (ds ++ 46 :: fs) = true := by
  unfold floatBodyCheck
  rw [takeWhile_append_all (46 :: fs) had, dropWhile_append_all (46 :: fs) had]
  have h46 : isDigit 46 = false := by decide
  simp [List.takeWhile_cons, List.dropWhile_cons, h46, isEmptyFalse_of_ne hd,
    isEmptyFalse_of_ne hf, List.all_eq_true.mpr haf]

theorem floatRe_cons_ne45 {c : Nat} {t : List Nat} (h : c ≠ 45) :
    floatRe (c :: t) = floatBodyCheck (c :: t) := by
  unfold floatRe
  split
  · rename_i heq
    injection heq with h1 _
    exact absurd h1 h
  · rfl

theorem takeFloatBody_body {sign t lit rest : List Nat}
    (h : takeFloatBody sign t = some (lit, rest)) :
    ∃ c cs, lit = sign ++ c :: cs ∧ isDigit c = true ∧
      floatBodyCheck (c :: cs) = true := by
  unfold takeFloatBody at h
  by_cases hds : (t.takeWhile isDigit).isEmpty = true
  · rw [if_pos hds] at h
    cases h
  · rw [if_neg hds] at h
    have hdsne : t.takeWhile isDigit ≠ [] := by
      intro hnil
      rw [hnil] at hds
      simp at hds
    have hdall : ∀ a ∈ t.takeWhile isDigit, isDigit a = true :=
      fun a ha => List.mem_takeWhile_imp ha
    obtain ⟨d, cs, hcc⟩ := List.exists_cons_of_ne_nil hdsne
    cases hdw : t.dropWhile isDigit with
    | nil =>
      simp only [hdw] at h
      cases h
      refine ⟨d, cs, by rw [hcc], hdall d (by rw [hcc]; simp), ?_⟩
      exact floatBodyCheck_digits (by simp) fun a ha => hdall a (hcc ▸ ha)
    | cons c r2 =>
      simp only [hdw] at h
      by_cases hc46 : c = 46
      · rw [if_pos hc46] at h
        by_cases hfs : (r2.takeWhile isDigit).isEmpty = true
        · rw [if_pos hfs] at h
          cases h
          refine ⟨d, cs, by rw [hcc], hdall d (by rw [hcc]; simp), ?_⟩
          exact floatBodyCheck_digits (by simp) fun a ha => hdall a (hcc ▸ ha)
        · rw [if_neg hfs] at h
          cases h
          have hfne : r2.takeWhile isDigit ≠ [] := by
            intro hnil
            rw [hnil] at hfs
            simp at hfs
          refine ⟨d, cs ++ 46 :: r2.takeWhile isDigit, ?_,
            hdall d (by rw [hcc]; simp), ?_⟩
          · rw [hcc]
            simp
          · have hsplit : d :: (cs ++ 46 :: r2.takeWhile isDigit) =
                (d :: cs) ++ 46 :: r2.takeWhile isDigit := by simp
            rw [hsplit]
            exact floatBodyCheck_frac (by simp) hfne
              (fun a ha => hdall a (hcc ▸ ha))
              (fun a ha => List.mem_takeWhile_imp ha)
      · rw [if_neg hc46] at h
        cases h
        refine ⟨d, cs, by rw [hcc], hdall d (by rw [hcc]; simp), ?_⟩
        exact floatBodyCheck_digits (by simp) fun a ha => hdall a (hcc ▸ ha)

theorem takeFloat_floatRe {s lit rest : List Nat}
    (h : takeFloat s = some (lit, rest)) : floatRe lit = true := by
  unfold takeFloat at h
  split at h
  · obtain ⟨c, cs, hlit, hc, hchk⟩ := takeFloatBody_body h
    subst hlit
    show floatRe (45 :: c :: cs) = true
    unfold floatRe
    exact hchk
  · obtain ⟨c, cs, hlit, hc, hchk⟩ := takeFloatBody_body h
    subst hlit
    have hc45 : c ≠ 45 := by
      unfold isDigit at hc
      have := (Bool.and_eq_true _ _).mp hc
      simp only [decide_eq_true_eq] at this
      omega
    rw [List.nil_append, floatRe_cons_ne45 hc45]
    exact hchk

theorem vec2Re_floats {raw x y : List Nat} (h : vec2Re raw = some (x, y)) :
    floatRe x = true ∧ floatRe y = true := by
  unfold vec2Re at h
  split at h
  · rename_i r0
    cases htf1 : takeFloat (r0.dropWhile pySpace) with
    | none =>
      simp only [htf1] at h
      cases h
    | some pr1 =>
      obtain ⟨f1, r1⟩ := pr1
      simp only [htf1] at h
      split at h
      · cases h
      · cases htf2 : takeFloat (r1.dropWhile pySpace) with
        | none =>
          simp only [htf2] at h
          cases h
        | some pr2 =>
          obtain ⟨f2, r2⟩ := pr2
          simp only [htf2] at h
          split at h
          · cases h
            exact ⟨takeFloat_floatRe htf1, takeFloat_floatRe htf2⟩
          · cases h
  · cases h

theorem vec3Re_floats {raw x y z : List Nat}
    (h : vec3Re raw = some (x, y, z)) :
    floatRe x = true ∧ floatRe y = true ∧ floatRe z = true := by
  unfold vec3Re at h
  split at h
  · rename_i r0
    cases htf1 : takeFloat (r0.dropWhile pySpace) with
    | none =>
      simp only [htf1] at h
      cases h
    | some pr1 =>
      obtain ⟨f1, r1⟩ := pr1
      simp only [htf1] at h
      split at h
      · cases h
      · cases htf2 : takeFloat (r1.dropWhile pySpace) with
        | none =>
          simp only [htf2] at h
          cases h
        | some pr2 =>
          obtain ⟨f2, r2⟩ := pr2
          simp only [htf2] at h
          split at h
          · cases h
          · cases htf3 : takeFloat (r2.dropWhile pySpace) with
            | none =>
              simp only [htf3] at h
              cases h
            | some pr3 =>
              obtain ⟨f3, r3⟩ := pr3
              simp only [htf3] at h
              split at h
              · cases h
                exact ⟨takeFloat_floatRe htf1, takeFloat_floatRe htf2,
                  takeFloat_floatRe htf3⟩
              · cases h
  · cases h

theorem asciiLower_hex {c : Nat} (h : isHexDigit c = true) :
    isHexDigit (asciiLower c) = true ∧
      (!(65 ≤ asciiLower c && asciiLower c ≤ 90)) = true := by
  unfold isHexDigit at h
  simp only [isDigit, Bool.or_eq_true, Bool.and_eq_true, decide_eq_true_eq] at h
  unfold asciiLower isHexDigit isDigit
  split
  · rename_i hc
    simp only [Bool.and_eq_true, decide_eq_true_eq] at hc
    simp only [Bool.or_eq_true, Bool.and_eq_true, Bool.not_eq_true',
      Bool.and_eq_false_iff, decide_eq_true_eq, decide_eq_false_iff_not]
    omega
  · rename_i hc
    simp only [Bool.and_eq_true, decide_eq_true_eq, not_and] at hc
    simp only [Bool.or_eq_true, Bool.and_eq_true, Bool.not_eq_true',
      Bool.and_eq_false_iff, decide_eq_true_eq, decide_eq_false_iff_not]
    omega

theorem colorOk_of_colorRe {raw : List Nat} (h : colorRe raw = true) :
    (colorRe (raw.map asciiLower) &&
      (raw.map asciiLower).all fun c => !(65 ≤ c && c ≤ 90)) = true := by
  unfold colorRe at h
  split at h
  · rename_i rest
    have h' := (Bool.and_eq_true _ _).mp h
    have hlen : rest.length = 6 := by simpa using h'.1
    have hhex : ∀ a ∈ rest, isHexDigit a = true := List.all_eq_true.mp h'.2
    have h35 : asciiLower 35 = 35 := by decide
    simp only [List.map_cons, h35, Bool.and_eq_true]
    constructor
    · unfold colorRe
      simp only [List.length_map, hlen, List.all_map, Bool.and_eq_true]
      refine ⟨by simp, ?_⟩
      rw [List.all_eq_true]
      intro a ha
      exact (asciiLower_hex (hhex a ha)).1
    · simp only [List.all_cons, List.all_map, Bool.and_eq_true]
      refine ⟨by decide, ?_⟩
      rw [List.all_eq_true]
      intro a ha
      exact (asciiLower_hex (hhex a ha)).2
  · cases h

theorem hexVal_lt {c : Nat} (h : isHexDigit c = true) : hexVal c < 16 := by
  unfold isHexDigit isDigit at h
  simp only [Bool.or_eq_true, Bool.and_eq_true, decide_eq_true_eq] at h
  unfold hexVal
  split
  · rename_i hc
    simp only [Bool.and_eq_true, decide_eq_true_eq] at hc
    omega
  · split
    · rename_i hc
      simp only [Bool.and_eq_true, decide_eq_true_eq] at hc
      omega
    · rename_i h1 h2
      simp only [Bool.and_eq_true, decide_eq_true_eq, not_and] at h1 h2
      omega

theorem fromHexPairs_length : ∀ l : List Nat,
    (fromHexPairs l).length = l.length / 2
  | [] => by simp [fromHexPairs]
  | [c] => by simp [fromHexPairs]
  | c1 :: c2 :: rest => by
    have ih := fromHexPairs_length rest
    simp only [fromHexPairs, List.length_cons, ih]
    omega

theorem fromHexPairs_lt : ∀ l : List Nat,
    (∀ c ∈ l, isHexDigit c = true) → ∀ b ∈ fromHexPairs l, b < 256
  | [] => by simp [fromHexPairs]
  | [c] => by simp [fromHexPairs]
  | c1 :: c2 :: rest => fun hall b hb => by
    simp only [fromHexPairs, List.mem_cons] at hb
    rcases hb with hb | hb
    · have h1 := hexVal_lt (hall c1 (by simp))
      have h2 := hexVal_lt (hall c2 (by simp))
      omega
    · exact fromHexPairs_lt rest (fun c hc => hall c (by simp [hc])) b hb

theorem foldl_digits_ge {acc : Nat} (h : 1 ≤ acc) :
    ∀ ds : List Nat, 1 ≤ ds.foldl (fun a d => a * 10 + (d - 48)) acc
  | [] => h
  | d :: ds => by
    have hstep : (1 : Nat) ≤ acc * 10 + (d - 48) := by omega
    exact foldl_digits_ge hstep ds

theorem natOfDigits_pos {d : Nat} (hd : 49 ≤ d) (ds : List Nat) :
    1 ≤ natOfDigits (d :: ds) := by
  unfold natOfDigits
  simp only [List.foldl_cons, Nat.zero_mul, Nat.zero_add]
  exact foldl_digits_ge (by omega) ds

theorem parse_bytes_ok {v : List Nat} {opt : Bool} {n : Nat} {w : Value}
    (h : parse_bytes v opt n = .ok w) :
    (w = .vNone ∧ opt = true) ∨
      (∃ bs, w = .vBytes bs ∧ bs.length = n ∧ ∀ b ∈ bs, b < 256) := by
  unfold parse_bytes at h
  cases hoe : optionalEmpty v opt with
  | none =>
    simp only [hoe] at h
    cases h
    exact .inl ⟨rfl, optionalEmpty_none hoe⟩
  | some raw =>
    simp only [hoe] at h
    split at h
    · rename_i hg
      obtain ⟨hlen, hhex⟩ := hg
      cases h
      refine .inr ⟨fromHexPairs raw, rfl, ?_, ?_⟩
      · rw [fromHexPairs_length, hlen]
        omega
      · have hall : ∀ c ∈ raw, isHexDigit c = true :=
          List.all_eq_true.mp ((Bool.and_eq_true _ _).mp hhex).2
        exact fromHexPairs_lt raw hall
    · cases h

theorem parseEnum_ok {v : List Nat} {o : Bool} {allowed : List (List Nat)}
    {mk : List Nat → Value} {w : Value}
    (h : parseEnum v o allowed mk = .ok w) :
    (w = .vNone ∧ o = true) ∨ (∃ raw, raw ∈ allowed ∧ w = mk raw) := by
  unfold parseEnum at h
  cases hoe : optionalEmpty v o with
  | none =>
    simp only [hoe] at h
    cases h
    exact .inl ⟨rfl, optionalEmpty_none hoe⟩
  | some raw =>
    simp only [hoe] at h
    split at h
    · cases h
      exact .inr ⟨raw, by assumption, rfl⟩
    · cases h

theorem session_token_inv {v : List Nat} {opt : Bool} {r : Option (List Nat)}
    (h : parse_session_token v opt = .ok r) :
    (r = none ∧ opt = true) ∨ (∃ bs, r = some bs ∧ bs.length = 32) := by
  unfold parse_session_token at h
  cases hoe : optionalEmpty v opt with
  | none =>
    simp only [hoe] at h
    cases h
    exact .inl ⟨rfl, optionalEmpty_none hoe⟩
  | some raw =>
    simp only [hoe] at h
    split at h
    · cases h
    · split at h
      · cases h
      · cases ha : a2bBase64 (raw ++ [61, 61]) with
        | none =>
          simp only [ha] at h
          cases h
        | some decoded =>
          simp only [ha] at h
          split at h
          · rename_i hlen
            cases h
            exact .inr ⟨decoded, rfl, hlen⟩
          · cases h

theorem parseValue_ok {t : BaseT} {v : List Nat} {opt : Bool} {w : Value}
    (h : parseValue t v opt = .ok w) : scalarOk t opt w = true := by
  cases t
  case zstring =>
    simp only [parseValue] at h
    unfold parse_zstring at h
    cases h
    rfl
  case string =>
    simp only [parseValue] at h
    unfold parse_string at h
    cases hoe : optionalEmpty v opt with
    | none =>
      simp only [hoe] at h
      cases h
      exact optionalEmpty_none hoe
    | some raw =>
      simp only [hoe] at h
      split at h
      · cases h
      · rename_i hne
        cases h
        have hfe : raw.isEmpty = false := by
          simpa using hne
        show (!raw.isEmpty) = true
        rw [hfe]
        rfl
  case int =>
    simp only [parseValue] at h
    unfold parse_int at h
    cases hoe : optionalEmpty v opt with
    | none =>
      simp only [hoe] at h
      cases h
      exact optionalEmpty_none hoe
    | some raw =>
      simp only [hoe] at h
      split at h
      · cases h
        rfl
      · cases h
  case float =>
    simp only [parseValue] at h
    unfold parse_float at h
    cases hoe : optionalEmpty v opt with
    | none =>
      simp only [hoe] at h
      cases h
      exact optionalEmpty_none hoe
    | some raw =>
      simp only [hoe] at h
      split at h
      · rename_i hfr
        cases h
        exact hfr
      · cases h
  case bool =>
    simp only [parseValue] at h
    unfold parse_bool at h
    cases hoe : optionalEmpty v opt with
    | none =>
      simp only [hoe] at h
      cases h
      exact optionalEmpty_none hoe
    | some raw =>
      simp only [hoe] at h
      split at h
      · cases h
        rfl
      · split at h
        · cases h
          rfl
        · cases h
  case vec2 =>
    simp only [parseValue] at h
    unfold parse_vec2 at h
    cases hoe : optionalEmpty v opt with
    | none =>
      simp only [hoe] at h
      cases h
      exact optionalEmpty_none hoe
    | some raw =>
      simp only [hoe] at h
      cases hv : vec2Re raw with
      | none =>
        simp only [hv] at h
        cases h
      | some pr =>
        obtain ⟨x, y⟩ := pr
        simp only [hv] at h
        cases h
        have hf := vec2Re_floats hv
        show (floatRe x && floatRe y) = true
        rw [hf.1, hf.2]
        rfl
  case vec3 =>
    simp only [parseValue] at h
    unfold parse_vec3 at h
    cases hoe : optionalEmpty v opt with
    | none =>
      simp only [hoe] at h
      cases h
      exact optionalEmpty_none hoe
    | some raw =>
      simp only [hoe] at h
      cases hv : vec3Re raw with
      | none =>
        simp only [hv] at h
        cases h
      | some pr =>
        obtain ⟨x, y, z⟩ := pr
        simp only [hv] at h
        cases h
        have hf := vec3Re_floats hv
        show (floatRe x && floatRe y && floatRe z) = true
        rw [hf.1, hf.2.1, hf.2.2]
        rfl
  case euler =>
    simp only [parseValue] at h
    unfold parse_euler at h
    cases hoe : optionalEmpty v opt with
    | none =>
      simp only [hoe] at h
      cases h
      exact optionalEmpty_none hoe
    | some raw =>
      simp only [hoe] at h
      cases hv : vec3Re raw with
      | none =>
        simp only [hv] at h
        cases h
      | some pr =>
        obtain ⟨x, y, z⟩ := pr
        simp only [hv] at h
        cases h
        have hf := vec3Re_floats hv
        show (floatRe x && floatRe y && floatRe z) = true
        rw [hf.1, hf.2.1, hf.2.2]
        rfl
  case color =>
    simp only [parseValue] at h
    unfold parse_color at h
    cases hoe : optionalEmpty v opt with
    | none =>
      simp only [hoe] at h
      cases h
      exact optionalEmpty_none hoe
    | some raw =>
      simp only [hoe] at h
      split at h
      · rename_i hcr
        cases h
        exact colorOk_of_colorRe hcr
      · cases h
  case bytes16 =>
    simp only [parseValue] at h
    rcases parse_bytes_ok h with ⟨rfl, hopt⟩ | ⟨bs, rfl, hlen, hlt⟩
    · exact hopt
    · show (bs.length == 16 && bs.all fun b => decide (b < 256)) = true
      refine (Bool.and_eq_true _ _).mpr ⟨by simpa using hlen, ?_⟩
      exact List.all_eq_true.mpr fun b hb => decide_eq_true (hlt b hb)
  case bytes32 =>
    simp only [parseValue] at h
    rcases parse_bytes_ok h with ⟨rfl, hopt⟩ | ⟨bs, rfl, hlen, hlt⟩
    · exact hopt
    · show (bs.length == 32 && bs.all fun b => decide (b < 256)) = true
      refine (Bool.and_eq_true _ _).mpr ⟨by simpa using hlen, ?_⟩
      exact List.all_eq_true.mpr fun b hb => decide_eq_true (hlt b hb)
  case bytes64 =>
    simp only [parseValue] at h
    rcases parse_bytes_ok h with ⟨rfl, hopt⟩ | ⟨bs, rfl, hlen, hlt⟩
    · exact hopt
    · show (bs.length == 64 && bs.all fun b => decide (b < 256)) = true
      refine (Bool.and_eq_true _ _).mpr ⟨by simpa using hlen, ?_⟩
      exact List.all_eq_true.mpr fun b hb => decide_eq_true (hlt b hb)
  case anyValue =>
    simp only [parseValue] at h
    unfold parse_any at h
    cases h
    rfl
  case uri =>
    simp only [parseValue] at h
    unfold parse_uri at h
    cases hoe : optionalEmpty v opt with
    | none =>
      simp only [hoe] at h
      cases h
      exact optionalEmpty_none hoe
    | some raw =>
      simp only [hoe] at h
      split at h
      · cases h
      · split at h
        · cases h
        · rename_i h1 h2
          cases h
          simp only [Bool.or_eq_true, not_or, Bool.not_eq_true] at h1
          have hsch : hasScheme raw = true := by
            simpa using h2
          show (!containsControl raw && !raw.any pySpace && hasScheme raw) = true
          rw [h1.1, h1.2, hsch]
          rfl
  case userid =>
    simp only [parseValue] at h
    unfold parse_userid at h
    cases hoe : optionalEmpty v opt with
    | none =>
      simp only [hoe] at h
      cases h
      exact optionalEmpty_none hoe
    | some raw =>
      simp only [hoe] at h
      split at h
      · cases h
      · split at h
        · cases h
        · split at h
          · cases h
          · rename_i h1 h2 h3
            cases h
            exact decide_eq_true ⟨by omega, h1, (not_ne_iff.mp h2).symm⟩
  case objectId =>
    simp only [parseValue] at h
    unfold parseIdentifier at h
    cases hoe : optionalEmpty v opt with
    | none =>
      simp only [hoe] at h
      cases h
      exact optionalEmpty_none hoe
    | some raw =>
      simp only [hoe] at h
      split at h
      · rename_i hg
        cases h
        exact hg
      · cases h
  case geomId =>
    simp only [parseValue] at h
    unfold parseIdentifier at h
    cases hoe : optionalEmpty v opt with
    | none =>
      simp only [hoe] at h
      cases h
      exact optionalEmpty_none hoe
    | some raw =>
      simp only [hoe] at h
      split at h
      · rename_i hg
        cases h
        exact hg
      · cases h
  case intentId =>
    simp only [parseValue] at h
    unfold parseIdentifier at h
    cases hoe : optionalEmpty v opt with
    | none =>
      simp only [hoe] at h
      cases h
      exact optionalEmpty_none hoe
    | some raw =>
      simp only [hoe] at h
      split at h
      · rename_i hg
        cases h
        exact hg
      · cases h
  case tag =>
    simp only [parseValue] at h
    unfold parseIdentifier at h
    cases hoe : optionalEmpty v opt with
    | none =>
      simp only [hoe] at h
      cases h
      exact optionalEmpty_none hoe
    | some raw =>
      simp only [hoe] at h
      split at h
      · rename_i hg
        cases h
        exact hg
      · cases h
  case tapKind =>
    simp only [parseValue] at h
    rcases parseEnum_ok h with ⟨rfl, hopt⟩ | ⟨raw, hmem, rfl⟩
    · exact hopt
    · exact decide_eq_true hmem
  case sizeMode =>
    simp only [parseValue] at h
    rcases parseEnum_ok h with ⟨rfl, hopt⟩ | ⟨raw, hmem, rfl⟩
    · exact hopt
    · exact decide_eq_true hmem
  case trackMode =>
    simp only [parseValue] at h
    rcases parseEnum_ok h with ⟨rfl, hopt⟩ | ⟨raw, hmem, rfl⟩
    · exact hopt
    · exact decide_eq_true hmem
  case reparentMode =>
    simp only [parseValue] at h
    rcases parseEnum_ok h with ⟨rfl, hopt⟩ | ⟨raw, hmem, rfl⟩
    · exact hopt
    · exact decide_eq_true hmem
  case anchor =>
    simp only [parseValue] at h
    rcases parseEnum_ok h with ⟨rfl, hopt⟩ | ⟨raw, hmem, rfl⟩
    · exact hopt
    · exact decide_eq_true hmem
  case version =>
    simp only [parseValue] at h
    unfold parse_version at h
    cases hoe : optionalEmpty v opt with
    | none =>
      simp only [hoe] at h
      cases h
      exact optionalEmpty_none hoe
    | some raw =>
      simp only [hoe] at h
      split at h
      · rename_i c d ds
        split at h
        · rename_i hg
          cases h
          have h49 : 49 ≤ d := by
            have hb := ((Bool.and_eq_true _ _).mp hg.2).1
            have hb2 := (Bool.and_eq_true _ _).mp hb
            simpa using hb2.1
          exact decide_eq_true (natOfDigits_pos h49 ds)
        · cases h
      · cases h
  case sessionToken =>
    simp only [parseValue] at h
    unfold parseSessionTokenValue at h
    cases hst : parse_session_token v opt with
    | error e =>
      simp only [hst] at h
      cases h
    | ok o =>
      rcases session_token_inv hst with ⟨rfl, hopt⟩ | ⟨bs, rfl, hlen⟩
      · simp only [hst] at h
        cases h
        exact hopt
      · simp only [hst] at h
        cases h
        show (bs.length == 32) = true
        simpa using hlen
  case unsupported =>
    simp only [parseValue] at h
    cases h
theorem parseValuesSeq_ok {t : BaseT} :
    ∀ {values : List (List Nat)} {vs : List Value},
      parseValuesSeq t values = .ok vs → vs.all (scalarOk t false) = true
  | [], vs, h => by
    cases h
    rfl
  | v :: values', vs, h => by
    unfold parseValuesSeq at h
    cases hpv : parseValue t v false with
    | error e =>
      simp only [hpv] at h
      cases h
    | ok w =>
      simp only [hpv] at h
      cases hrec : parseValuesSeq t values' with
      | error e =>
        simp only [hrec] at h
        cases h
      | ok ws =>
        simp only [hrec] at h
        cases h
        rw [List.all_cons, parseValue_ok hpv, parseValuesSeq_ok hrec]
        rfl

theorem parseTuple_ok :
    ∀ {ts : List BaseT} {chunk : List (List Nat)} {ws : List Value},
      parseTuple ts chunk = .ok ws →
      ws.length = min ts.length chunk.length ∧
        ((ts.zip ws).all fun p => scalarOk p.1 false p.2) = true
  | [], chunk, ws, h => by
    cases h
    simp
  | t :: ts', [], ws, h => by
    cases h
    simp
  | t :: ts', c :: cs, ws, h => by
    unfold parseTuple at h
    cases hpv : parseValue t c false with
    | error e =>
      simp only [hpv] at h
      cases h
    | ok v =>
      simp only [hpv] at h
      cases hrec : parseTuple ts' cs with
      | error e =>
        simp only [hrec] at h
        cases h
      | ok vs =>
        simp only [hrec] at h
        cases h
        obtain ⟨hl, ha⟩ := parseTuple_ok hrec
        constructor
        · simp only [List.length_cons, hl]
          omega
        · rw [List.zip_cons_cons, List.all_cons, parseValue_ok hpv, ha]
          rfl

theorem parseTupleChunks_ok {ts : List BaseT} (hne : ts ≠ []) :
    ∀ (fuel : Nat) {values : List (List Nat)} {vs : List Value},
      values.length % ts.length = 0 →
      parseTupleChunks ts fuel values = .ok vs → vs.all (tupleOk ts) = true
  | fuel, [], vs, _, h => by
    cases fuel <;> cases h <;> rfl
  | 0, v :: values', vs, halign, h => by
    cases h
    rfl
  | fuel + 1, v :: values', vs, halign, h => by
    unfold parseTupleChunks at h
    cases hpt : parseTuple ts ((v :: values').take ts.length) with
    | error e =>
      simp only [hpt] at h
      cases h
    | ok ws =>
      simp only [hpt] at h
      cases hrec : parseTupleChunks ts fuel ((v :: values').drop ts.length) with
      | error e =>
        simp only [hrec] at h
        cases h
      | ok rest =>
        simp only [hrec] at h
        cases h
        have htl : 0 < ts.length := List.length_pos.mpr hne
        have hvl : ts.length ≤ (v :: values').length :=
          Nat.le_of_dvd (by simp) (Nat.dvd_of_mod_eq_zero halign)
        obtain ⟨hwl, hwall⟩ := parseTuple_ok hpt
        have hwlen : ws.length = ts.length := by
          rw [hwl, List.length_take]
          omega
        have halign' : ((v :: values').drop ts.length).length % ts.length = 0 := by
          rw [List.length_drop]
          obtain ⟨k, hk⟩ := Nat.dvd_of_mod_eq_zero halign
          rw [hk]
          have h2 : ts.length * k - ts.length = ts.length * (k - 1) := by
            cases k with
            | zero => simp
            | succ k' =>
              rw [Nat.mul_succ, Nat.add_sub_cancel, Nat.add_sub_cancel]
          rw [h2]
          exact Nat.mul_mod_right _ _
        rw [List.all_cons]
        have h1 : tupleOk ts (.vTuple ws) = true := by
          show (ws.length == ts.length &&
            ((ts.zip ws).all fun p => scalarOk p.1 false p.2)) = true
          refine (Bool.and_eq_true _ _).mpr ⟨by simpa using hwlen, hwall⟩
        rw [h1, parseTupleChunks_ok hne fuel halign' hrec]
        rfl

theorem parseList_ok {inner : ListInner} {values : List (List Nat)} {v : Value}
    (h : parseList inner values = .ok v) : listInnerOk inner v = true := by
  cases inner with
  | bad =>
    simp only [parseList] at h
    cases h
  | elem t =>
    simp only [parseList] at h
    cases hs : parseValuesSeq t values with
    | error e =>
      simp only [hs] at h
      cases h
    | ok vs =>
      simp only [hs] at h
      cases h
      show vs.all (scalarOk t false) = true
      exact parseValuesSeq_ok hs
  | tup ts =>
    simp only [parseList] at h
    by_cases hts : ts.isEmpty = true
    · rw [if_pos hts] at h
      cases h
      show (if ts.isEmpty = true then (List.isEmpty [])
        else ([] : List Value).all (tupleOk ts)) = true
      rw [if_pos hts]
      rfl
    · rw [if_neg hts] at h
      split at h
      · cases h
      · rename_i hal
        cases hc : parseTupleChunks ts values.length values with
        | error e =>
          simp only [hc] at h
          cases h
        | ok vs =>
          simp only [hc] at h
          cases h
          have hne : ts ≠ [] := by
            intro hnil
            rw [hnil] at hts
            simp at hts
          have hal' : values.length % ts.length = 0 := not_ne_iff.mp hal
          show (if ts.isEmpty = true then vs.isEmpty
            else vs.all (tupleOk ts)) = true
          rw [if_neg hts]
          exact parseTupleChunks_ok hne values.length hal' hc

theorem parseArgs_ok :
    ∀ {params : List Param} {args : List (List Nat)} {vals : List Value},
      parseArgs params args = .ok vals →
      List.Forall₂ (fun p v => annOk p v = true) params vals
  | [], args, vals, h => by
    cases h
    exact .nil
  | p :: ps, args, vals, h => by
    unfold parseArgs at h
    cases hel : p.elem with
    | listOf inner =>
      simp only [hel] at h
      split at h
      · rename_i hps
        cases hl : parseList inner args with
        | error e =>
          simp only [hl] at h
          cases h
        | ok v =>
          simp only [hl] at h
          cases h
          have hps' : ps = [] := by
            simpa using hps
          subst hps'
          refine .cons ?_ .nil
          unfold annOk
          rw [hel]
          exact parseList_ok hl
      · cases h
    | base t =>
      simp only [hel] at h
      cases hpv : parseValue t (args.headD []) p.optional with
      | error e =>
        simp only [hpv] at h
        cases h
      | ok v =>
        simp only [hpv] at h
        cases hrec : parseArgs ps args.tail with
        | error e =>
          simp only [hrec] at h
          cases h
        | ok vs =>
          simp only [hrec] at h
          cases h
          refine .cons ?_ (parseArgs_ok hrec)
          unfold annOk
          rw [hel]
          exact parseValue_ok hpv

theorem initSubclass_ok_iff : ∀ ds : List HandlerDecl,
    (∃ reg, initSubclass ds = .ok reg) ↔
      ∀ d ∈ ds, d.returnsNone = true ∧ d.hasSelf = true ∧
        (d.params.any fun p => p.optional && p.elem.isListAnn) = false
  | [] => by
    simp [initSubclass]
  | d :: ds => by
    have ih := initSubclass_ok_iff ds
    constructor
    · rintro ⟨reg, h⟩
      unfold initSubclass at h
      split at h
      · cases h
      · split at h
        · cases h
        · split at h
          · cases h
          · rename_i h1 h2 h3
            cases hrec : initSubclass ds with
            | error e =>
              simp only [hrec] at h
              cases h
            | ok reg' =>
              intro x hx
              rcases List.mem_cons.mp hx with rfl | hx
              · refine ⟨by simpa using h1, by simpa using h2, by simpa using h3⟩
              · exact (ih.mp ⟨reg', hrec⟩) x hx
    · intro hall
      obtain ⟨reg, hrec⟩ := ih.mpr fun x hx => hall x (by simp [hx])
      have hd := hall d (by simp)
      refine ⟨(d.cmdName, d.params) :: reg, ?_⟩
      unfold initSubclass
      rw [if_neg (by simp [hd.1]), if_neg (by simp [hd.2.1]),
        if_neg (by simp [hd.2.2]), hrec]

theorem parseArgs_nonterminal_list :
    ∀ (pre : List Param) {p : Param} {post : List Param} {inner : ListInner}
      {args : List (List Nat)} {vals : List Value}, p.elem = .listOf inner →
      post ≠ [] → parseArgs (pre ++ p :: post) args ≠ .ok vals
  | [], p, post, inner, args, vals => fun hp hpost h => by
    rw [List.nil_append] at h
    unfold parseArgs at h
    simp only [hp] at h
    rw [if_neg (by simpa using hpost)] at h
    cases h
  | q :: pre', p, post, inner, args, vals => fun hp hpost h => by
    rw [List.cons_append] at h
    unfold parseArgs at h
    cases hqe : q.elem with
    | listOf inner' =>
      simp only [hqe] at h
      rw [if_neg (by simp)] at h
      cases h
    | base t =>
      simp only [hqe] at h
      cases hpv : parseValue t (args.headD []) q.optional with
      | error e =>
        simp only [hpv] at h
        cases h
      | ok v =>
        simp only [hpv] at h
        cases hrec : parseArgs (pre' ++ p :: post) args.tail with
        | error e =>
          simp only [hrec] at h
          cases h
        | ok vs =>
          exact parseArgs_nonterminal_list pre' hp hpost hrec

/-- C2 counterexample: arity mismatches do not reach `handle_error`.  A
command registered with no parameters, invoked with one surplus argument,
still calls its handler (the surplus argument is silently dropped); a
command with one non-optional `ZString` parameter, invoked with no
arguments, still calls its handler with the empty string (missing
arguments are parsed from `""`). -/
theorem c2_counterexample :
    executeCommand [([99], [])] [99] [[120]] = .invoke [] [] ∧
    executeCommand [([99], [⟨false, .base .zstring⟩])] [99] [] =
      .invoke [⟨false, .base .zstring⟩] [.vStr []] := ⟨rfl, rfl⟩

/-- C2 (amended): `execute_command` calls `handle_error` exactly when the
command is unknown or `_parse_args` raises; when it instead invokes the
handler, the handler receives exactly the values produced by the declared
parsers, and each value is well-typed for its parameter's annotation
(`Forall₂ annOk`).  Arity mismatches alone do not produce an error call. -/
theorem c2_dispatch (reg : List (List Nat × List Param)) (cmd : List Nat)
    (args : List (List Nat)) :
    (lookupCmd reg cmd = none →
      executeCommand reg cmd args = .errorCall .unknownCommand) ∧
    (∀ params e, lookupCmd reg cmd = some params →
      parseArgs params args = .error e →
      executeCommand reg cmd args = .errorCall e) ∧
    (∀ params vals, executeCommand reg cmd args = .invoke params vals →
      lookupCmd reg cmd = some params ∧ parseArgs params args = .ok vals ∧
      List.Forall₂ (fun p v => annOk p v = true) params vals) := by
  refine ⟨?_, ?_, ?_⟩
  · intro h
    unfold executeCommand
    rw [h]
  · intro params e h1 h2
    unfold executeCommand
    rw [h1]
    simp only [h2]
  · intro params vals h
    unfold executeCommand at h
    cases hl : lookupCmd reg cmd with
    | none =>
      simp only [hl] at h
      cases h
    | some ps =>
      simp only [hl] at h
      cases hp : parseArgs ps args with
      | error e =>
        simp only [hp] at h
        cases h
      | ok vs =>
        simp only [hp] at h
        cases h
        exact ⟨rfl, hp, parseArgs_ok hp⟩

/-- C2 witness: a lookup miss produces the unknown-command error call. -/
theorem c2_witness :
    executeCommand [] [99] [] = .errorCall .unknownCommand :=
  (c2_dispatch [] [99] []).1 rfl

/-- C7 counterexample: `__init_subclass__` registers both an optional
`ZString` parameter and a non-terminal list parameter without raising —
the claim says both declarations must fail registration. -/
theorem c7_counterexample :
    initSubclass [⟨[122], true, true, [⟨true, .base .zstring⟩]⟩,
        ⟨[108], true, true,
          [⟨false, .listOf (.elem .int)⟩, ⟨false, .base .int⟩]⟩] =
      .ok [([122], [⟨true, .base .zstring⟩]),
        ([108], [⟨false, .listOf (.elem .int)⟩, ⟨false, .base .int⟩])] := rfl

/-- C7 (amended): registration fails exactly on a non-None return
annotation, a missing `self`, or an optional list parameter.  An optional
`ZString` registers (and `parse_zstring` accepts every value), and a
non-terminal list parameter registers but its command can never invoke:
`_parse_args` never succeeds on such a parameter list. -/
theorem c7_registration :
    (∀ ds : List HandlerDecl,
      (∃ reg, initSubclass ds = .ok reg) ↔
        ∀ d ∈ ds, d.returnsNone = true ∧ d.hasSelf = true ∧
          (d.params.any fun p => p.optional && p.elem.isListAnn) = false) ∧
    (∀ (pre : List Param) (p : Param) (post : List Param) (inner : ListInner)
      (args : List (List Nat)) (vals : List Value), p.elem = .listOf inner →
      post ≠ [] → parseArgs (pre ++ p :: post) args ≠ .ok vals) ∧
    (∀ (v : List Nat) (o : Bool), parse_zstring v o = .ok (.vStr v)) :=
  ⟨initSubclass_ok_iff,
    fun pre p post inner args vals hp hpost =>
      parseArgs_nonterminal_list pre hp hpost,
    fun v o => rfl⟩

/-- C7 witness: a list parameter followed by another parameter can never be
parsed successfully, with the instance used in the counterexample. -/
theorem c7_witness :
    parseArgs [⟨false, .listOf (.elem .int)⟩, ⟨false, .base .int⟩] [] ≠
      .ok [] :=
  c7_registration.2.1 [] ⟨false, .listOf (.elem .int)⟩ [⟨false, .base .int⟩]
    (.elem .int) [] [] rfl (by decide)
/-!
## Buffered receive (`net.py` `NetStream.recv`)

The stream state is the accumulator `buffer`; the underlying transport is an
oracle listing successive `recv_unbuffered` results: `none` for a poll
timeout, `some []` for EOF, `some d` for delivered bytes.  An exhausted
oracle behaves like a timeout (the loop breaks).  The deadline is summarized
by the two booleans the code queries: `is_reached()` and `is_empty()`.
-/

/-- Exit of the `while` loop inside `recv`: either the early `return b""`
(EOF with an empty accumulator) or falling through to the drain logic. -/
inductive LoopExit where
  | retEmpty (buf : List Nat)
  | fallthrough (buf : List Nat)
  deriving DecidableEq, Repr

/-- The `while len(buffer) < 4096 and len(buffer) < max_bytes` loop of
`NetStream.recv`, lines 128-139. -/
def recvLoop (maxB : Int) : List (Option (List Nat)) → List Nat → LoopExit
  | oracle, buf =>
    if ¬(buf.length < 4096 ∧ (buf.length : Int) < maxB) then .fallthrough buf
    else
      match oracle with
      | [] => .fallthrough buf
      | none :: _ => .fallthrough buf
      | some [] :: _ => if buf ≠ [] then .fallthrough buf else .retEmpty buf
      | some d :: rest =>
        if ((buf ++ d).length : Int) ≥ maxB then .fallthrough (buf ++ d)
        else recvLoop maxB rest (buf ++ d)

/-- `NetStream.recv(max_bytes, deadline)`, returning the Python result and
the accumulator left behind. -/
def recv (buffer : List Nat) (maxB : Int) (reached deadlineEmpty : Bool)
    (oracle : List (Option (List Nat))) : Option (List Nat) × List Nat :=
  if maxB ≤ 0 then (some [], buffer)
  else if (buffer.length : Int) ≥ maxB then
    (some (buffer.take maxB.toNat), buffer.drop maxB.toNat)
  else if reached = true ∧ deadlineEmpty = false then (none, buffer)
  else
    match recvLoop maxB oracle buffer with
    | .retEmpty buf => (some [], buf)
    | .fallthrough buf =>
      if buf = [] then (none, buf)
      else
        (some (buf.take (min maxB.toNat buf.length)),
          buf.drop (min maxB.toNat buf.length))

/-!
## Connection handshake (`net.py` session tokens and fragments)
-/

/-- Handshake-level failures: any `HandshakeError`, a propagated
`ParseError`, a `urlsplit` `ValueError`, or the explicit session-token
mismatch `ValueError` of `_resolve_session_token`. -/
inductive HsErr where
  | handshake
  | parse (e : PErr)
  | urlError
  | tokenMismatch
  deriving DecidableEq, Repr

/-- The fields of `urllib.parse.SplitResult`. -/
structure SplitRes where
  scheme : List Nat
  netloc : List Nat
  path : List Nat
  query : List Nat
  fragment : List Nat
  deriving DecidableEq, Repr

/-- Scheme extraction of CPython `urlsplit`: the run before the first `:`
when it is a nonempty ASCII-letter-led run of scheme characters. -/
def splitScheme (url : List Nat) : List Nat × List Nat :=
  let pre := url.takeWhile fun c => c != 58
  if pre.length != url.length && !pre.isEmpty &&
      (match pre with
       | c :: _ => isAsciiAlpha c
       | [] => false) && pre.all isSchemeChar then
    (pre.map asciiLower, url.drop (pre.length + 1))
  else ([], url)

/-- `_splitnetloc`: after `//`, the netloc runs to the first `/`, `?` or
`#`; the delimiter stays in the remainder. -/
def splitNetloc (url : List Nat) : List Nat × List Nat :=
  let rest := url.drop 2
  let net := rest.takeWhile fun c => !(c == 47 || c == 63 || c == 35)
  (net, rest.drop net.length)

/-- Split `s` at the first occurrence of `c` (Python `s.split(chr(c), 1)`),
returning `(s, [])` when `c` does not occur. -/
def splitFirst (c : Nat) (s : List Nat) : List Nat × List Nat :=
  let pre := s.takeWhile fun x => x != c
  if pre.length = s.length then (s, []) else (pre, s.drop (pre.length + 1))

/-- CPython `urlsplit` on a str: lstrip C0-control-or-space, remove
tab/CR/LF, take the scheme, the `//`-netloc (with the bracket-mismatch
`ValueError` as `none`), the fragment at the first `#`, and the query at
the first `?` of what remains. -/
def urlsplitM (url0 : List Nat) : Option SplitRes :=
  let url1 := (url0.dropWhile fun c => decide (c ≤ 32)).filter
    fun c => ¬(c = 9 ∨ c = 10 ∨ c = 13)
  let (scheme, rest1) := splitScheme url1
  let (netloc, rest2) :=
    if rest1.take 2 = [47, 47] then splitNetloc rest1 else ([], rest1)
  if (91 ∈ netloc ∧ 93 ∉ netloc) ∨ (93 ∈ netloc ∧ 91 ∉ netloc) then none
  else
    let (rest3, fragment) := splitFirst 35 rest2
    let (path, query) := splitFirst 63 rest3
    some ⟨scheme, netloc, path, query, fragment⟩

/-- `_strip_fragment`. -/
def stripFragment (parsed : SplitRes) : SplitRes :=
  { parsed with fragment := [] }

/-- `_resolve_session_token`.  (`explicit or fragment_token` is modeled as
the `Option` choice; a session token is 32 bytes, never falsy.) -/
def resolveSessionToken (parsed : SplitRes) (explicit : Option (List Nat)) :
    Except HsErr (Option (List Nat)) :=
  if parsed.fragment.isEmpty then .ok explicit
  else
    match parse_session_token parsed.fragment false with
    | .error e => .error (.parse e)
    | .ok ft =>
      match explicit with
      | some ex => if some ex ≠ ft then .error .tokenMismatch else .ok (some ex)
      | none => .ok ft

/-- The `ConnectionToken` fields the claim is about. -/
structure ConnToken where
  source_url : SplitRes
  session_token : Option (List Nat)
  deriving DecidableEq, Repr

/-- The token-and-URL part shared by all four `Client._connect_*` paths:
resolve the session token against the fragment, then build the
`ConnectionToken` with `source_url=_strip_fragment(parsed)`.  Host/port
resolution and the transport handshake are independent of both fields. -/
def connectToken (parsed : SplitRes) (explicit : Option (List Nat)) :
    Except HsErr ConnToken :=
  match resolveSessionToken parsed explicit with
  | .error e => .error e
  | .ok tok => .ok ⟨stripFragment parsed, tok⟩

/-- `_receive_command` on a decoded handshake line: split on TAB and check
name/parameter validity. -/
def receiveCommand (line : List Nat) : Except HsErr (List (List Nat)) :=
  let parts := line.splitOn 9
  if ¬(parts ≠ [] ∧ isValidName (parts.headD [])) then .error .handshake
  else if parts.tail.any (fun p => !isValidParam p) then .error .handshake
  else .ok parts

/-- `"hackvr-hello"`. -/
def helloName : List Nat := [104, 97, 99, 107, 118, 114, 45, 104, 101, 108, 108, 111]

/-- `_HelloInfo`. -/
structure HelloInfo where
  source_url : SplitRes
  session_token : Option (List Nat)
  deriving DecidableEq, Repr

/-- `_receive_client_hello` on a received line: name check, arity 3 or 4,
version and URI validation, optional session token, and
`source_url=urlsplit(str(uri))` — the URI is used as sent, fragment
included. -/
def receiveClientHello (line : List Nat) : Except HsErr HelloInfo :=
  match receiveCommand line with
  | .error e => .error e
  | .ok parts =>
    if parts.headD [] ≠ helloName then .error .handshake
    else if ¬(parts.length = 3 ∨ parts.length = 4) then .error .handshake
    else
      match parse_version (parts.getD 1 []) false with
      | .error e => .error (.parse e)
      | .ok _ =>
        match parse_uri (parts.getD 2 []) false with
        | .error e => .error (.parse e)
        | .ok _ =>
          if parts.length = 4 then
            match parse_session_token (parts.getD 3 []) false with
            | .error e => .error (.parse e)
            | .ok tok =>
              match urlsplitM (parts.getD 2 []) with
              | none => .error .urlError
              | some sp => .ok ⟨sp, tok⟩
          else
            match urlsplitM (parts.getD 2 []) with
            | none => .error .urlError
            | some sp => .ok ⟨sp, none⟩

/-- The client-hello line `hackvr-hello\tv1\thackvr://example.com/world#frag`. -/
def c4line : List Nat :=
  helloName ++ [9] ++ [118, 49] ++ [9] ++
    [104, 97, 99, 107, 118, 114, 58, 47, 47, 101, 120, 97, 109, 112, 108,
      101, 46, 99, 111, 109, 47, 119, 111, 114, 108, 100, 35, 102, 114, 97,
      103]

/-- C3 counterexample: with a non-empty accumulator (1 byte buffered),
`max_bytes=2`, and a reached non-INSTANT deadline, `recv` returns `None`
even though buffered data is available — the claim says a non-empty
accumulator always yields data. -/
theorem c3_counterexample :
    recv [97] 2 true false [] = (none, [97]) := rfl

/-- C3 (amended): `recv` returns `b""` for `max_bytes <= 0` without
touching the buffer; drains `max_bytes` when the accumulator already holds
that much; returns `None` leaving the buffer intact whenever the deadline
is reached (and not INSTANT) while the accumulator holds fewer than
`max_bytes` bytes — even a non-empty accumulator; any `None` result is one
of those deadline returns or has an empty accumulator; and on immediate
EOF it returns the whole buffered data (or `b""` when nothing is
buffered). -/
theorem c3_recv (buffer : List Nat) (maxB : Int) (reached deadlineEmpty : Bool)
    (oracle : List (Option (List Nat))) :
    (maxB ≤ 0 →
      recv buffer maxB reached deadlineEmpty oracle = (some [], buffer)) ∧
    (0 < maxB → maxB ≤ (buffer.length : Int) →
      recv buffer maxB reached deadlineEmpty oracle =
        (some (buffer.take maxB.toNat), buffer.drop maxB.toNat)) ∧
    (0 < maxB → (buffer.length : Int) < maxB → reached = true →
      deadlineEmpty = false →
      recv buffer maxB reached deadlineEmpty oracle = (none, buffer)) ∧
    (∀ b', recv buffer maxB reached deadlineEmpty oracle = (none, b') →
      (reached = true ∧ deadlineEmpty = false ∧ b' = buffer) ∨ b' = []) ∧
    (∀ rest, 0 < maxB → (buffer.length : Int) < maxB →
      (reached = true → deadlineEmpty = true) → buffer ≠ [] →
      oracle = some [] :: rest →
      recv buffer maxB reached deadlineEmpty oracle = (some buffer, [])) ∧
    (∀ rest, 0 < maxB → (reached = true → deadlineEmpty = true) →
      buffer = [] → oracle = some [] :: rest →
      recv buffer maxB reached deadlineEmpty oracle = (some [], [])) := by
  refine ⟨?_, ?_, ?_, ?_, ?_, ?_⟩
  · intro h
    unfold recv
    rw [if_pos h]
  · intro h1 h2
    unfold recv
    rw [if_neg (by omega), if_pos (by omega)]
  · intro h1 h2 h3 h4
    unfold recv
    rw [if_neg (by omega), if_neg (by omega), if_pos ⟨h3, h4⟩]
  · intro b' h
    unfold recv at h
    split at h
    · cases h
    · split at h
      · cases h
      · split at h
        · rename_i hc
          cases h
          exact .inl ⟨hc.1, hc.2, rfl⟩
        · split at h
          · cases h
          · rename_i buf
            split at h
            · rename_i hb
              cases h
              exact .inr hb
            · cases h
  · intro rest h1 h2 h3 hne horacle
    subst horacle
    unfold recv
    rw [if_neg (by omega), if_neg (by omega),
      if_neg (by intro hc; exact absurd (h3 hc.1) (by simp [hc.2]))]
    have hdrain : recvLoop maxB (some [] :: rest) buffer = .fallthrough buffer := by
      unfold recvLoop
      by_cases hcond : buffer.length < 4096 ∧ (buffer.length : Int) < maxB
      · rw [if_neg (by simpa using hcond)]
        simp only []
        rw [if_pos hne]
      · rw [if_pos (by simpa using hcond)]
    rw [hdrain]
    show (if buffer = [] then ((none : Option (List Nat)), buffer)
      else (some (buffer.take (min maxB.toNat buffer.length)),
        buffer.drop (min maxB.toNat buffer.length))) = (some buffer, [])
    rw [if_neg hne]
    have hmin : min maxB.toNat buffer.length = buffer.length := by omega
    rw [hmin, List.take_length, List.drop_length]
  · intro rest h1 h2 hb horacle
    subst hb
    subst horacle
    unfold recv
    rw [if_neg (by omega)]
    by_cases hlen : (0 : Int) ≥ maxB
    · omega
    · rw [if_neg (by simpa using hlen),
        if_neg (by intro hc; exact absurd (h2 hc.1) (by simp [hc.2]))]
      have hloop : recvLoop maxB (some [] :: rest) [] = .retEmpty [] := by
        unfold recvLoop
        rw [if_neg (by simp; omega)]
        simp only []
        rw [if_neg (by simp)]
      rw [hloop]

/-- C3 witness: the deadline branch at the counterexample input, reached
through the amended theorem. -/
theorem c3_witness : recv [97] 2 true false [] = (none, [97]) ∧
    recv [] 5 false false [some []] = (some [], []) :=
  ⟨(c3_recv [97] 2 true false []).2.2.1 (by decide) (by decide) rfl rfl,
    (c3_recv [] 5 false false [some []]).2.2.2.2.2 [] (by decide)
      (fun h => by cases h) rfl rfl⟩

/-- C4 counterexample: a server accepting the client hello
`hackvr-hello\tv1\thackvr://example.com/world#frag` succeeds and stores the
URI fragment in `source_url` — the claim says every resulting
`ConnectionToken.source_url` has an empty fragment. -/
theorem c4_counterexample :
    receiveClientHello c4line =
      .ok ⟨⟨[104, 97, 99, 107, 118, 114],
        [101, 120, 97, 109, 112, 108, 101, 46, 99, 111, 109],
        [47, 119, 111, 114, 108, 100], [], [102, 114, 97, 103]⟩, none⟩ ∧
    [102, 114, 97, 103] ≠ ([] : List Nat) := ⟨by decide, by decide⟩

/-- C4 (amended): on the client side (all four schemes) the fragment is
resolved into the session token — a parse failure or a mismatch with an
explicit token raises, agreement or absence succeeds — and the client's
`ConnectionToken.source_url` always has its fragment stripped.  The
server side (see the counterexample) keeps the fragment the client sent
in its URI. -/
theorem c4_handshake :
    (∀ (parsed : SplitRes) (explicit : Option (List Nat)) (tok : ConnToken),
      connectToken parsed explicit = .ok tok →
      tok.source_url.fragment = [] ∧ tok.source_url = stripFragment parsed) ∧
    (∀ (parsed : SplitRes) (ex : List Nat) (ft : Option (List Nat)),
      parsed.fragment ≠ [] →
      parse_session_token parsed.fragment false = .ok ft →
      (ft ≠ some ex → connectToken parsed (some ex) = .error .tokenMismatch) ∧
      (ft = some ex →
        connectToken parsed (some ex) = .ok ⟨stripFragment parsed, some ex⟩)) ∧
    (∀ (parsed : SplitRes) (ft : Option (List Nat)),
      parsed.fragment ≠ [] →
      parse_session_token parsed.fragment false = .ok ft →
      connectToken parsed none = .ok ⟨stripFragment parsed, ft⟩) ∧
    (∀ (parsed : SplitRes) (e : PErr),
      parsed.fragment ≠ [] →
      parse_session_token parsed.fragment false = .error e →
      ∀ explicit, connectToken parsed explicit = .error (.parse e)) := by
  refine ⟨?_, ?_, ?_, ?_⟩
  · intro parsed explicit tok h
    unfold connectToken at h
    cases hr : resolveSessionToken parsed explicit with
    | error e =>
      simp only [hr] at h
      cases h
    | ok t =>
      simp only [hr] at h
      cases h
      exact ⟨rfl, rfl⟩
  · intro parsed ex ft hfrag hparse
    have hfe : parsed.fragment.isEmpty = false := isEmptyFalse_of_ne hfrag
    constructor
    · intro hne
      unfold connectToken resolveSessionToken
      rw [hfe]
      simp only [Bool.false_eq_true, if_false, hparse]
      rw [if_pos (fun he => hne he.symm)]
    · intro heq
      unfold connectToken resolveSessionToken
      rw [hfe]
      simp only [Bool.false_eq_true, if_false, hparse]
      rw [if_neg (by simp [heq])]
  · intro parsed ft hfrag hparse
    have hfe : parsed.fragment.isEmpty = false := isEmptyFalse_of_ne hfrag
    unfold connectToken resolveSessionToken
    rw [hfe]
    simp only [Bool.false_eq_true, if_false, hparse]
  · intro parsed e hfrag hparse explicit
    have hfe : parsed.fragment.isEmpty = false := isEmptyFalse_of_ne hfrag
    unfold connectToken resolveSessionToken
    rw [hfe]
    simp only [Bool.false_eq_true, if_false, hparse]

/-- C4 witness: a fragment token mismatch raises, and without an explicit
token the fragment token is adopted and the fragment stripped, at the
32-byte token of `serialize_session_token (List.range 32)`. -/
theorem c4_witness :
    connectToken ⟨[104], [], [], [], serialize_session_token (List.range 32)⟩
        (some [1, 2]) = .error .tokenMismatch ∧
    connectToken ⟨[104], [], [], [], serialize_session_token (List.range 32)⟩
        none = .ok ⟨⟨[104], [], [], [], []⟩, some (List.range 32)⟩ :=
  ⟨((c4_handshake.2.1 ⟨[104], [], [], [], serialize_session_token (List.range 32)⟩
      [1, 2] (some (List.range 32)) (by decide) (by decide)).1 (by decide)),
    (c4_handshake.2.2.1 ⟨[104], [], [], [], serialize_session_token (List.range 32)⟩
      (some (List.range 32)) (by decide) (by decide))⟩
/-!
## Selector globbing (`common/globbing.py`)
-/

/-- The `ValueError`s globbing can raise. -/
inductive GlobErr where
  | emptyPattern
  | nestedGroup
  | unexpectedBrace
  | unterminated
  | emptyPart
  | emptyGroupItem
  | invalidGroupItem
  | invalidRange
  | invalidRangeOrder
  deriving DecidableEq, Repr

/-- The character loop of `_split_pattern` (`current`/`parts`/`depth`). -/
def splitPatternAux : List Nat → List Nat → List (List Nat) → Nat →
    Except GlobErr (List (List Nat))
  | [], current, parts, depth =>
    if depth ≠ 0 then .error .unterminated
    else if current = [] then .error .emptyPart
    else .ok (parts ++ [current])
  | ch :: rest, current, parts, depth =>
    if ch = 123 ∧ depth = 0 then splitPatternAux rest (current ++ [123]) parts 1
    else if ch = 123 then .error .nestedGroup
    else if ch = 125 ∧ depth = 0 then .error .unexpectedBrace
    else if ch = 125 ∧ depth = 1 then
      splitPatternAux rest (current ++ [125]) parts 0
    else if ch = 45 ∧ depth = 0 then
      if current = [] then .error .emptyPart
      else splitPatternAux rest [] (parts ++ [current]) 0
    else splitPatternAux rest (current ++ [ch]) parts depth

/-- `_split_pattern`. -/
def splitPattern (pattern : List Nat) : Except GlobErr (List (List Nat)) :=
  if pattern = [] then .error .emptyPattern
  else splitPatternAux pattern [] [] 0

/-- `_is_group`: starts with `{` and ends with `}`. -/
def isGroup (part : List Nat) : Bool :=
  part.head? == some 123 && part.getLast? == some 125

/-- Whether `".."` occurs as a substring. -/
def hasDotDot : List Nat → Bool
  | 46 :: 46 :: _ => true
  | _ :: rest => hasDotDot rest
  | [] => false

/-- Python `body.partition("..")` without the separator: the part before
the first `".."` and the part after (everything when absent). -/
def partitionDotDot : List Nat → List Nat × List Nat
  | [] => ([], [])
  | 46 :: 46 :: rest => ([], rest)
  | c :: rest =>
    let p := partitionDotDot rest
    (c :: p.1, p.2)

/-- `str.isdigit` restricted to ASCII digits (the only digits these
patterns use). -/
def isDigitStr (s : List Nat) : Bool := !s.isEmpty && s.all isDigit

/-- `_has_leading_zero`. -/
def hasLeadingZero (s : List Nat) : Bool :=
  decide (1 < s.length) && s.head? == some 48

/-- `str(n)` for a natural number. -/
def natToStr (n : Nat) : List Nat := (Nat.toDigits 10 n).map Char.toNat

/-- `str.zfill` on a digit string. -/
def zfill (w : Nat) (s : List Nat) : List Nat :=
  List.replicate (w - s.length) 48 ++ s

/-- `_expand_range` (`zfill` width only when a bound has a leading zero and
some bound is wider than one digit; `zfill 0` is the identity, matching the
unpadded branch). -/
def expandRange (body : List Nat) : Except GlobErr (List (List Nat)) :=
  let p := partitionDotDot body
  if ¬(isDigitStr p.1 = true ∧ isDigitStr p.2 = true) then .error .invalidRange
  else
    let start := natOfDigits p.1
    let stop := natOfDigits p.2
    if start > stop then .error .invalidRangeOrder
    else
      let width :=
        if (hasLeadingZero p.1 || hasLeadingZero p.2) &&
            decide (1 < max p.1.length p.2.length) then
          max p.1.length p.2.length
        else 0
      .ok ((List.range (stop + 1 - start)).map fun i =>
        zfill width (natToStr (start + i)))

/-- `_is_valid_part`. -/
def isValidPartG (allowReserved : Bool) (part : List Nat) : Bool :=
  if allowReserved && part.head? == some 36 then reservedRe part
  else !part.isEmpty && part.all isWordChar

/-- `_expand_group`. -/
def expandGroup (allowReserved : Bool) (part : List Nat) :
    Except GlobErr (List (List Nat)) :=
  let body := (part.drop 1).dropLast
  if hasDotDot body then expandRange body
  else
    let items := body.splitOn 44
    if items.any (fun i => i.isEmpty) then .error .emptyGroupItem
    else if items.any (fun i => !isValidPartG allowReserved i) then
      .error .invalidGroupItem
    else .ok items

/-- `itertools.product` over a list of alternative lists (leftmost factor
varies slowest). -/
def productG : List (List (List Nat)) → List (List (List Nat))
  | [] => [[]]
  | xs :: rest => xs.flatMap fun x => (productG rest).map fun combo => x :: combo

/-- The per-part expansion loop shared by `expand` and `_expand_patterns`
(`allow_reserved` only for index 0). -/
def expandAll : List (List Nat) → Bool → Except GlobErr (List (List (List Nat)))
  | [], _ => .ok []
  | part :: rest, isFirst =>
    match (if isGroup part then expandGroup isFirst part
      else .ok [part] : Except GlobErr (List (List Nat))) with
    | .error e => .error e
    | .ok xs =>
      match expandAll rest false with
      | .error e => .error e
      | .ok rest' => .ok (xs :: rest')

/-- `_expand_patterns`, materialized as `select` does with `list(...)`. -/
def expandPatterns (pattern : List Nat) : Except GlobErr (List (List Nat)) :=
  match splitPattern pattern with
  | .error e => .error e
  | .ok parts =>
    match expandAll parts true with
    | .error e => .error e
    | .ok expandedParts =>
      .ok ((productG expandedParts).map fun combo => List.intercalate [45] combo)

/-- `_is_valid_literal`. -/
def isValidLiteral (allowReserved : Bool) (part : List Nat) : Bool :=
  if part = [42] ∨ part = [63] then true
  else if allowReserved && part.head? == some 36 then reservedRe part
  else identifierRe part

/-- `_is_valid_range`. -/
def isValidRange (body : List Nat) : Bool :=
  let p := partitionDotDot body
  hasDotDot body && isDigitStr p.1 && isDigitStr p.2

/-- `_is_valid_group`. -/
def isValidGroup (allowReserved : Bool) (part : List Nat) : Bool :=
  let body := (part.drop 1).dropLast
  if hasDotDot body then isValidRange body
  else
    let items := body.splitOn 44
    !(items.any fun i => i.isEmpty) && items.all (isValidPartG allowReserved)

/-- The part loop of `is_valid_pattern`. -/
def isValidPatternAux : List (List Nat) → Bool → Bool
  | [], _ => true
  | part :: rest, isFirst =>
    (if part = [42] ∨ part = [63] then true
     else if isGroup part then isValidGroup isFirst part
     else isValidLiteral isFirst part) && isValidPatternAux rest false

/-- `is_valid_pattern`. -/
def is_valid_pattern (pattern : List Nat) : Bool :=
  match splitPattern pattern with
  | .error _ => false
  | .ok parts => isValidPatternAux parts true

/-- `_pattern_parts`. -/
def patternParts (pattern : List Nat) : List (List Nat) :=
  pattern.splitOn 45

/-- `token.split("-") if token else [""]`. -/
def tokenParts (token : List Nat) : List (List Nat) :=
  if token ≠ [] then token.splitOn 45 else [[]]

/-- The two-pointer loop of `_matches` with its backtracking state
(`pi`, `ti`, `star_index`, `match_index`).  Each iteration strictly
increases `(match_index, pi, ti)` lexicographically within their bounds,
so the fuel passed by `matchesParts` can never run out. -/
def matchesAux (pp tp : List (List Nat)) :
    Nat → Nat → Nat → Option Nat → Nat → Bool
  | 0, _, _, _, _ => false
  | fuel + 1, pi, ti, starIdx, matchIdx =>
    if ti < tp.length then
      if pi < pp.length ∧ pp.getD pi [] = [42] then
        matchesAux pp tp fuel (pi + 1) ti (some pi) ti
      else if pi < pp.length ∧
          (pp.getD pi [] = [63] ∨ pp.getD pi [] = tp.getD ti []) then
        matchesAux pp tp fuel (pi + 1) (ti + 1) starIdx matchIdx
      else
        match starIdx with
        | some si =>
          matchesAux pp tp fuel (si + 1) (matchIdx + 1) (some si) (matchIdx + 1)
        | none => false
    else (pp.drop pi).all fun part => part == [42]

/-- `_matches` (the trailing-star sweep is the `all`-stars check on the
remaining pattern parts). -/
def matchesParts (pp tp : List (List Nat)) : Bool :=
  matchesAux pp tp
    ((tp.length + 2) * (pp.length + 2) * (tp.length + 2) + 1) 0 0 none 0

/-- The `token in seen` / match / append loop of `select`, with the `seen`
set as a list. -/
def selectLoop (parsed : List (List (List Nat))) {α : Type}
    (key : α → List Nat) : List α → List (List Nat) → List α
  | [], _ => []
  | item :: rest, seen =>
    if key item ∈ seen then selectLoop parsed key rest seen
    else if parsed.any (fun pp => matchesParts pp (tokenParts (key item))) then
      item :: selectLoop parsed key rest (key item :: seen)
    else selectLoop parsed key rest seen

/-- `select(pattern, scope, key)`. -/
def select (pattern : List Nat) {α : Type} (scope : List α)
    (key : α → List Nat) : Except GlobErr (List α) :=
  if pattern = [42] then .ok scope
  else
    match expandPatterns pattern with
    | .error e => .error e
    | .ok pats => .ok (selectLoop (pats.map patternParts) key scope [])
theorem selectLoop_sublist {α : Type} (parsed : List (List (List Nat)))
    (key : α → List Nat) :
    ∀ (scope : List α) (seen : List (List Nat)),
      (selectLoop parsed key scope seen).Sublist scope
  | [], seen => by
    simp [selectLoop]
  | item :: rest, seen => by
    unfold selectLoop
    split
    · exact (selectLoop_sublist parsed key rest seen).cons item
    · split
      · exact (selectLoop_sublist parsed key rest (key item :: seen)).cons₂ item
      · exact (selectLoop_sublist parsed key rest seen).cons item

theorem selectLoop_matches {α : Type} (parsed : List (List (List Nat)))
    (key : α → List Nat) :
    ∀ (scope : List α) (seen : List (List Nat)) (x : α),
      x ∈ selectLoop parsed key scope seen →
      parsed.any (fun pp => matchesParts pp (tokenParts (key x))) = true
  | [], seen, x => by
    simp [selectLoop]
  | item :: rest, seen, x => by
    unfold selectLoop
    split
    · exact selectLoop_matches parsed key rest seen x
    · split
      · intro hx
        rcases List.mem_cons.mp hx with rfl | hx
        · assumption
        · exact selectLoop_matches parsed key rest (key item :: seen) x hx
      · exact selectLoop_matches parsed key rest seen x

theorem selectLoop_nodup {α : Type} (parsed : List (List (List Nat)))
    (key : α → List Nat) :
    ∀ (scope : List α) (seen : List (List Nat)),
      ((selectLoop parsed key scope seen).map key).Nodup ∧
        ∀ x ∈ selectLoop parsed key scope seen, key x ∉ seen
  | [], seen => by
    simp [selectLoop]
  | item :: rest, seen => by
    unfold selectLoop
    split
    · exact selectLoop_nodup parsed key rest seen
    · split
      · rename_i hseen hmatch
        obtain ⟨hnd, hns⟩ := selectLoop_nodup parsed key rest (key item :: seen)
        constructor
        · rw [List.map_cons, List.nodup_cons]
          refine ⟨?_, hnd⟩
          intro hmem
          obtain ⟨y, hy, hky⟩ := List.mem_map.mp hmem
          exact hns y hy (by rw [hky]; simp)
        · intro x hx
          rcases List.mem_cons.mp hx with rfl | hx
          · exact hseen
          · intro hxs
            exact hns x hx (by simp [hxs])
      · exact selectLoop_nodup parsed key rest seen

theorem selectLoop_complete {α : Type} (parsed : List (List (List Nat)))
    (key : α → List Nat) :
    ∀ (scope : List α) (seen : List (List Nat)) (x : α), x ∈ scope →
      parsed.any (fun pp => matchesParts pp (tokenParts (key x))) = true →
      key x ∈ seen ∨ ∃ y ∈ selectLoop parsed key scope seen, key y = key x
  | [], seen, x => by
    simp
  | item :: rest, seen, x => by
    intro hx hmatch
    unfold selectLoop
    split
    · rename_i hseen
      rcases List.mem_cons.mp hx with rfl | hx
      · exact .inl hseen
      · exact selectLoop_complete parsed key rest seen x hx hmatch
    · split
      · rename_i hseen hm
        rcases List.mem_cons.mp hx with rfl | hx
        · exact .inr ⟨x, by simp⟩
        · rcases selectLoop_complete parsed key rest (key item :: seen) x hx
            hmatch with hin | ⟨y, hy, hky⟩
          · rcases List.mem_cons.mp hin with heq | hin
            · exact .inr ⟨item, by simp, heq.symm⟩
            · exact .inl hin
          · exact .inr ⟨y, by simp [hy], hky⟩
      · rename_i hseen hm
        rcases List.mem_cons.mp hx with rfl | hx
        · exact absurd hmatch hm
        · exact selectLoop_complete parsed key rest seen x hx hmatch

/-- C9 counterexample: `select "*"` returns the scope unchanged — two scope
members with the same key are both returned, so the star case does not
deduplicate by key; and the pattern `{5..2}` is accepted by
`is_valid_pattern` yet makes `select` raise at expansion time instead of
returning the matching members. -/
theorem c9_counterexample :
    select [42] [(0 : Nat), 1] (fun _ => [97]) = .ok [0, 1] ∧
    ¬(([(0 : Nat), 1].map fun _ => ([97] : List Nat)).Nodup) ∧
    is_valid_pattern [123, 53, 46, 46, 50, 125] = true ∧
    select [123, 53, 46, 46, 50, 125] ([] : List Nat) (fun _ => []) =
      .error .invalidRangeOrder :=
  ⟨rfl, by decide, by decide, by decide⟩

/-- C9 (amended): `select "*"` returns the scope as-is (no matching, no
key-deduplication); for any other pattern whose expansion succeeds, the
result is an order-preserving sublist of the scope whose members all match
an expanded pattern, with pairwise-distinct keys, and containing a
representative for every matching key in scope; when expansion of the
pattern raises (which valid patterns such as `{5..2}` can), `select`
propagates the error. -/
theorem c9_select {α : Type} (pattern : List Nat) (scope : List α)
    (key : α → List Nat) :
    (select [42] scope key = .ok scope) ∧
    (∀ res, pattern ≠ [42] → select pattern scope key = .ok res →
      ∃ pats, expandPatterns pattern = .ok pats ∧
        res.Sublist scope ∧
        (∀ x ∈ res, ((pats.map patternParts).any
          fun pp => matchesParts pp (tokenParts (key x))) = true) ∧
        (res.map key).Nodup ∧
        (∀ x ∈ scope, ((pats.map patternParts).any
          fun pp => matchesParts pp (tokenParts (key x))) = true →
          ∃ y ∈ res, key y = key x)) ∧
    (∀ e, pattern ≠ [42] → expandPatterns pattern = .error e →
      select pattern scope key = .error e) := by
  refine ⟨?_, ?_, ?_⟩
  · unfold select
    rw [if_pos rfl]
  · intro res hne h
    unfold select at h
    rw [if_neg hne] at h
    cases hexp : expandPatterns pattern with
    | error e =>
      simp only [hexp] at h
      cases h
    | ok pats =>
      simp only [hexp] at h
      cases h
      refine ⟨pats, rfl, selectLoop_sublist _ key scope [], ?_, 
        (selectLoop_nodup _ key scope []).1, ?_⟩
      · intro x hx
        exact selectLoop_matches _ key scope [] x hx
      · intro x hx hm
        rcases selectLoop_complete (pats.map patternParts) key scope [] x hx hm
          with hin | hgood
        · cases hin
        · exact hgood
  · intro e hne hexp
    unfold select
    rw [if_neg hne]
    simp only [hexp]

/-- C9 witness: a valid range pattern with reversed bounds makes `select`
raise through the amended theorem's error-propagation clause. -/
theorem c9_witness :
    select [123, 53, 46, 46, 50, 125] [(7 : Nat)] (fun _ => [97]) =
      .error .invalidRangeOrder :=
  (c9_select [123, 53, 46, 46, 50, 125] [7] fun _ => [97]).2.2
    .invalidRangeOrder (by decide) (by decide)
